import Mathlib

/-!
Formal model of the pln repository's two core subsystems:
quota-driven Q&A synthesis (src/src/qa_generator.py) and multi-source
similarity retrieval aggregation (src/examples/search_dbv.py,
src/examples/semantic_search.py, src/src/chat_service.py,
src/src/vector_store.py).  Python strings are modelled as lists of
characters; the external LLM, splitter and vector-search capabilities are
modelled as injected functions, following section 6 of the specification.
-/

namespace PLN

set_option maxRecDepth 4000

/-- ASCII whitespace recognised by Python's str.strip and the regex class
backslash-s: space, tab, newline, carriage return, vertical tab, form feed. -/
def isSpace (c : Char) : Bool :=
  c = ' ' || c = '\t' || c = '\n' || c = '\r' || c = '\x0b' || c = '\x0c'

/-- Python str.strip(): drop whitespace from both ends. -/
def pyStrip (l : List Char) : List Char :=
  List.rdropWhile isSpace (List.dropWhile isSpace l)

/-- re.sub(r"\s+", " ", s): replace each maximal whitespace run by a single
space.  A whitespace character followed by another whitespace character is
dropped; the last character of each run becomes a plain space. -/
def collapse : List Char → List Char
  | [] => []
  | [c] => if isSpace c then [' '] else [c]
  | c :: d :: cs =>
    if isSpace c && isSpace d then collapse (d :: cs)
    else (if isSpace c then ' ' else c) :: collapse (d :: cs)

/-- Match a literal character sequence at the head of a list; return the
remainder on success. -/
def matchLit : List Char → List Char → Option (List Char)
  | [], cs => some cs
  | _ :: _, [] => none
  | p :: ps, c :: cs => if c = p then matchLit ps cs else none

/-- Length of a match of the counting pattern from generate_qa_pairs
(regex: two asterisks, "Pergunta ", one or more digits, colon) at the head
of the list, if any. -/
def markerQ? (cs : List Char) : Option Nat :=
  match matchLit "**Pergunta ".data cs with
  | none => none
  | some rest =>
    let ds := rest.takeWhile Char.isDigit
    if ds.isEmpty then none
    else
      match matchLit [':'] (rest.drop ds.length) with
      | none => none
      | some _ => some (11 + ds.length + 1)

/-- Length of a match of the record marker used by clean_qa_content
(two asterisks, "Pergunta ", digits, colon, two asterisks) at the head, if
any. -/
def markerFull? (cs : List Char) : Option Nat :=
  match matchLit "**Pergunta ".data cs with
  | none => none
  | some rest =>
    let ds := rest.takeWhile Char.isDigit
    if ds.isEmpty then none
    else
      match matchLit [':', '*', '*'] (rest.drop ds.length) with
      | none => none
      | some _ => some (11 + ds.length + 3)

/-- Length of a match of clean_qa_content's unnumbered fallback marker
(two asterisks, "Pergunta:", two asterisks) at the head, if any. -/
def markerPlain? (cs : List Char) : Option Nat :=
  (matchLit "**Pergunta:**".data cs).map fun _ => 13

/-- First position (and match length) at which the marker matches, scanning
left to right. -/
def findStart (m : List Char → Option Nat) : List Char → Option (Nat × Nat)
  | [] => none
  | c :: cs =>
    match m (c :: cs) with
    | some k => some (0, k)
    | none => (findStart m cs).map fun ik => (ik.1 + 1, ik.2)

/-- Count non-overlapping marker matches left to right, as re.findall does
for the counting pattern.  The fuel argument is instantiated with the length
of the list, which bounds the number of scanning steps. -/
def countM (m : List Char → Option Nat) : Nat → List Char → Nat
  | 0, _ => 0
  | _ + 1, [] => 0
  | fuel + 1, c :: cs =>
    match m (c :: cs) with
    | some k => 1 + countM m fuel ((c :: cs).drop k)
    | none => countM m fuel cs

/-- The count of question markers in the buffer:
len(re.findall(counting pattern, content)). -/
def countPergunta (cs : List Char) : Nat := countM markerQ? cs.length cs

/-- Successive full matches of the record regex
(marker, lazy any, lookahead for the next marker or end of input): the input
starts with a marker of length k; each segment extends to the next marker
found at or after the end of its own leading marker. -/
def segLoop (m : List Char → Option Nat) : Nat → List Char → Nat → List (List Char)
  | 0, cs, _ => [cs]
  | fuel + 1, cs, k =>
    match findStart m (cs.drop k) with
    | none => [cs]
    | some ik => cs.take (k + ik.1) :: segLoop m fuel (cs.drop (k + ik.1)) ik.2

/-- re.findall((MARKER.*?)(?=MARKER|end), content, DOTALL): the segments of
the buffer starting at each record marker. -/
def findallQA (m : List Char → Option Nat) (cs : List Char) : List (List Char) :=
  match findStart m cs with
  | none => []
  | some ik => segLoop m cs.length (cs.drop ik.1) ik.2

/-- One step of clean_qa_content's uniqueness filter: the key is the
whitespace-collapsed, stripped match; a match is kept when its key is unseen
and longer than 20 characters; the stored record is the stripped raw match. -/
def cleanStep (acc : List (List Char) × List (List Char)) (m : List Char) :
    List (List Char) × List (List Char) :=
  let ck := pyStrip (collapse m)
  if ck ∉ acc.2 ∧ 20 < ck.length then (acc.1 ++ [pyStrip m], acc.2 ++ [ck]) else acc

/-- The regex matches clean_qa_content extracts: numbered records, falling
back to the unnumbered pattern when there are none. -/
def matchesOf (content : List Char) : List (List Char) :=
  let ms := findallQA markerFull? content
  if ms.isEmpty then findallQA markerPlain? content else ms

/-- The unique record list produced by QAGenerator.clean_qa_content: the
first num_questions matches, filtered by key uniqueness in first-seen order. -/
def clean_qa_records (content : List Char) (n : Nat) : List (List Char) :=
  if content.isEmpty then []
  else (((matchesOf content).take n).foldl cleanStep ([], [])).1

/-- QAGenerator.clean_qa_content: the unique records joined by blank lines. -/
def clean_qa_content (content : List Char) (n : Nat) : List Char :=
  List.intercalate ['\n', '\n'] (clean_qa_records content n)

/-- dynamic_chunk_size from qa_generator.py. -/
def dynamic_chunk_size (text_length : Nat) : Nat :=
  if text_length > 200000 then 30000
  else if text_length > 100000 then 20000
  else 15000

/-- The chunk_overlap passed to the splitter: int(chunk_size * 0.1), which is
exact division by ten for each of the three possible sizes. -/
def chunk_overlap (text_length : Nat) : Nat := dynamic_chunk_size text_length / 10

/-- External capabilities used by QAGenerator: the langchain text splitter
and the LLM calls made by process_chunk_simple and generate_simple_qa.  An
exception inside either call is caught by the generator and treated as empty
output, so each capability is modelled as a total function returning the
produced text.  Difficulty, temperature and context keywords are forwarded
verbatim to the external capability and do not influence the control flow
modelled here. -/
structure GenEnv where
  split : List Char → List (List Char)
  genChunk : List Char → Nat → List Char
  genSimple : List Char → Nat → List Char

/-- QAGenerator.chunk_document: empty or whitespace-only text yields no
chunks; otherwise the external splitter (parameterised by
dynamic_chunk_size/chunk_overlap) is invoked. -/
def chunk_document (env : GenEnv) (text : List Char) : List (List Char) :=
  if pyStrip text = [] then [] else env.split text

/-- Result of generate_qa_pairs together with the trace of generation calls:
one chunkCalls entry per process_chunk_simple invocation (text, questions
requested) and one topupCalls entry per generate_simple_qa invocation
(tail-window text, questions requested). -/
structure GenOut where
  content : List Char
  chunkCalls : List (List Char × Nat)
  topupCalls : List (List Char × Nat)
deriving DecidableEq

/-- The per-chunk quota of generate_qa_pairs:
max(1, num_questions // total_chunks). -/
def qpcOf (env : GenEnv) (doc : List Char) (n : Nat) : Nat :=
  max 1 (n / (chunk_document env doc).length)

/-- The non-empty per-chunk outputs collected by generate_qa_pairs (a chunk
whose output is empty or whitespace-only is discarded). -/
def qaResultsOf (env : GenEnv) (doc : List Char) (n : Nat) : List (List Char) :=
  ((chunk_document env doc).map fun c => env.genChunk c (qpcOf env doc n)).filter
    fun r => ¬(pyStrip r).isEmpty

/-- The raw buffer generate_qa_pairs counts question markers in: the chunk
outputs joined by blank lines, before any deduplication. -/
def rawBufferOf (env : GenEnv) (doc : List Char) (n : Nat) : List Char :=
  List.intercalate ['\n', '\n'] (qaResultsOf env doc n)

/-- The tail window generate_simple_qa reads: the last 5000 characters of
the document (the whole document when shorter). -/
def tailWindow (doc : List Char) : List Char := doc.drop (doc.length - 5000)

/-- QAGenerator.generate_qa_pairs.  Empty input returns empty.  Text shorter
than 5000 characters is processed by one direct call requesting the full
target and returned as is.  Longer text is chunked; each chunk is processed
with the per-chunk quota; empty chunk outputs are discarded; if no chunk
produced output the run returns empty; otherwise the outputs are joined,
the question markers counted on that raw buffer, a single top-up call over
the last 5000 characters is made when the count falls short, and the buffer
is finalised by clean_qa_content. -/
def generate_qa_pairs (env : GenEnv) (doc : List Char) (n : Nat) : GenOut :=
  if pyStrip doc = [] then ⟨[], [], []⟩
  else if doc.length < 5000 then ⟨env.genChunk doc n, [(doc, n)], []⟩
  else
    let chunks := chunk_document env doc
    if chunks.isEmpty then ⟨[], [], []⟩
    else
      let calls := chunks.map fun c => (c, qpcOf env doc n)
      let qa_results := qaResultsOf env doc n
      if qa_results.isEmpty then ⟨[], calls, []⟩
      else
        let full := rawBufferOf env doc n
        let cnt := countPergunta full
        if cnt < n then
          let extra := env.genSimple (tailWindow doc) (n - cnt)
          let full2 := if extra.isEmpty then full else full ++ ['\n', '\n'] ++ extra
          ⟨clean_qa_content full2 n, calls, [(tailWindow doc, n - cnt)]⟩
        else ⟨clean_qa_content full n, calls, []⟩

/-- Modelled from the spec (section 4.4, ToppingUp and Finalizing): the
deduplicated buffer — the parsed records filtered by first-seen
normalized_signature uniqueness — whose question-marker count the claims
take as the produced count.  The code has no such pre-top-up deduplication;
this definition renders the claim's words for comparison. -/
def specDedupBuffer (content : List Char) : List Char :=
  List.intercalate ['\n', '\n']
    (((findallQA markerFull? content).foldl
      (fun (acc : List (List Char) × List (List Char)) m =>
        let sig := pyStrip (collapse m)
        if sig ∈ acc.2 then acc else (acc.1 ++ [m], acc.2 ++ [sig])) ([], [])).1)

/-- The produced count per the spec's words: question markers found in the
deduplicated buffer. -/
def specDedupCount (content : List Char) : Nat := countPergunta (specDedupBuffer content)

/-- A SimilarityResult from search_dbv.py: vector id, similarity score,
optional chunk text, optional metadata (a string-keyed dictionary modelled
as an association list).  Float scores are modelled as rationals, which
carries the order structure the aggregation relies on. -/
structure SimilarityResult where
  id : String
  score : ℚ
  text : Option String
  metadata : Option (List (String × String))
deriving DecidableEq

/-- The document id used for grouping: present when the metadata dictionary
is truthy and contains the key document_id. -/
def getDocId (r : SimilarityResult) : Option String :=
  match r.metadata with
  | none => none
  | some m => m.lookup "document_id"

/-- The descending-by-key order used by every sort in the aggregation code. -/
def descRel {α : Type} (f : α → ℚ) : α → α → Prop := fun a b => f b ≤ f a

instance {α : Type} (f : α → ℚ) : DecidableRel (descRel f) := fun a b =>
  inferInstanceAs (Decidable (f b ≤ f a))

instance {α : Type} (f : α → ℚ) : IsTotal α (descRel f) :=
  ⟨fun a b => le_total (f b) (f a)⟩

instance {α : Type} (f : α → ℚ) : IsTrans α (descRel f) :=
  ⟨fun _ _ _ h1 h2 => le_trans h2 h1⟩

/-- Python's stable list.sort(key=score, reverse=True): a stable descending
sort, realised as insertion sort with the reflexive descending relation
(extensionally equal to any stable sort by descending key). -/
def sortDescBy {α : Type} (f : α → ℚ) (l : List α) : List α :=
  List.insertionSort (descRel f) l

/-- The per-document update inside group_results_by_document: a new document
id is appended (dictionary insertion order); an existing entry is replaced
only when the new score is strictly greater, so the first-seen hit wins
ties. -/
def updateBest (best : List (String × SimilarityResult)) (k : String)
    (r : SimilarityResult) : List (String × SimilarityResult) :=
  match best with
  | [] => [(k, r)]
  | (k0, v) :: rest =>
    if k0 = k then (k0, if v.score < r.score then r else v) :: rest
    else (k0, v) :: updateBest rest k r

/-- One loop iteration of group_results_by_document: hits without a
document_id in their metadata are skipped. -/
def groupStep (best : List (String × SimilarityResult)) (r : SimilarityResult) :
    List (String × SimilarityResult) :=
  match getDocId r with
  | none => best
  | some k => updateBest best k r

/-- group_results_by_document from search_dbv.py: best hit per document in
dictionary order, then sort by score descending and truncate to the limit. -/
def group_results_by_document (results : List SimilarityResult) (limit : Nat) :
    List SimilarityResult :=
  if results.isEmpty then results
  else (sortDescBy (fun r => r.score) ((results.foldl groupStep []).map Prod.snd)).take limit

/-- Modelled from the spec: the external VectorSearch capability of section
6, as invoked by search_qdrant (qdrant_client search with score_threshold):
the top search_limit candidates whose score is at or above the threshold,
ordered by descending score.  The candidate pool stands for the collection's
similarity hits for the query vector. -/
def qdrant_search (candidates : List SimilarityResult) (search_limit : Nat)
    (threshold : ℚ) : List SimilarityResult :=
  (sortDescBy (fun r => r.score) (candidates.filter fun r => threshold ≤ r.score)).take
    search_limit

/-- search_qdrant from search_dbv.py: triple the backing limit when grouping
is requested, perform the single thresholded backing search, then group per
document if requested. -/
def search_qdrant (candidates : List SimilarityResult) (limit : Nat) (threshold : ℚ)
    (group : Bool) : List SimilarityResult :=
  let search_limit := if group then limit * 3 else limit
  let results := qdrant_search candidates search_limit threshold
  if group then group_results_by_document results limit else results

/-- Python dict assignment d[k] = v on the association-list model: replace
the binding in place, or append a new one. -/
def dictInsert (d : List (String × String)) (k v : String) : List (String × String) :=
  match d with
  | [] => [(k, v)]
  | (k0, v0) :: rest => if k0 = k then (k0, v) :: rest else (k0, v0) :: dictInsert rest k v

/-- search_multiple_vector_stores tags each hit's metadata with the vector
store's id and name, creating the dictionary when metadata is None. -/
def tagHit (sid : Nat) (name : String) (r : SimilarityResult) : SimilarityResult :=
  { r with
    metadata := some (dictInsert
      (dictInsert (r.metadata.getD []) "vector_store_id" (toString sid))
      "vector_store_name" name) }

/-- One vector store inside search_multiple_vector_stores: its id, name and
the outcome of get_vector_store plus search_qdrant for this request.  An
HTTPException or unexpected exception is the error case; the non-qdrant
provider skip behaves identically for aggregation purposes. -/
structure StoreSearch where
  sid : Nat
  name : String
  outcome : Except String (List SimilarityResult)

/-- The final aggregation stage of search_multiple_vector_stores: sort every
collected hit by score descending, then either group per document or
truncate to the limit. -/
def aggregate (all : List SimilarityResult) (group : Bool) (limit : Nat) :
    List SimilarityResult :=
  if group then group_results_by_document (sortDescBy (fun r => r.score) all) limit
  else (sortDescBy (fun r => r.score) all).take limit

/-- One iteration of search_multiple_vector_stores' per-store loop: a
successful store appends its tagged hits, a failing store appends one log
entry and contributes no hits; either way the loop continues. -/
def smvsStep (acc : List SimilarityResult × List String) (s : StoreSearch) :
    List SimilarityResult × List String :=
  match s.outcome with
  | .ok rs => (acc.1 ++ rs.map (tagHit s.sid s.name), acc.2)
  | .error e => (acc.1, acc.2 ++ [e])

/-- search_multiple_vector_stores from semantic_search.py: the per-store
loop with failure isolation, followed by the aggregation stage. -/
def search_multiple_vector_stores (stores : List StoreSearch) (limit : Nat)
    (group : Bool) : List SimilarityResult × List String :=
  let collected := stores.foldl smvsStep ([], [])
  (aggregate collected.1 group limit, collected.2)

/-- The tagged hits a store contributes when it succeeds (none on failure). -/
def okHits (s : StoreSearch) : List SimilarityResult :=
  match s.outcome with
  | .ok rs => rs.map (tagHit s.sid s.name)
  | .error _ => []

/-- The error log entries: one per failed store, in store order. -/
def errList (stores : List StoreSearch) : List String :=
  stores.filterMap fun s =>
    match s.outcome with
    | .ok _ => none
    | .error e => some e

/-- A result dictionary returned by QdrantVectorStore.search_similar; only
the fields the chat aggregation touches are modelled. -/
structure ChatHit where
  score : ℚ
  content : String
  source_collection : Option String
deriving DecidableEq

/-- The parameter names of QdrantVectorStore.search_similar
(src/src/vector_store.py): there is no similarity_threshold parameter. -/
def search_similar_params : List String :=
  ["self", "collection_name", "query", "top_k", "embedding_model"]

/-- The keyword arguments used at the call site inside
RAGChatService.search_relevant_documents_multiple's per-collection loop. -/
def chat_call_keywords : List String := ["similarity_threshold"]

/-- Python's call protocol: a keyword argument not among the callee's
parameters raises TypeError before the callee's body runs.  The backend
function stands for a successful execution of search_similar's body; the
threshold argument is the value bound to the rejected keyword. -/
def call_search_similar (backend : String → String → Nat → List ChatHit)
    (c q : String) (k : Nat) (threshold : ℚ) : Except String (List ChatHit) :=
  if chat_call_keywords.all (fun kw => search_similar_params.contains kw) then
    .ok (backend c q k)
  else
    .error ("TypeError: unexpected keyword argument for threshold "
      ++ toString threshold)

/-- External state seen by RAGChatService.search_relevant_documents_multiple:
whether Qdrant is in use, search_similar's behaviour, and list_collections
(name, exists_in_qdrant) for the unnamed-collections branch. -/
structure ChatEnv where
  useQdrant : Bool
  backend : String → String → Nat → List ChatHit
  collections : List (String × Bool)

/-- One iteration of the named-collections loop: the call's TypeError is
caught and the collection skipped; a successful call's hits are tagged with
their source collection. -/
def chatStep (env : ChatEnv) (query : String) (top_k : Nat) (threshold : ℚ)
    (acc : List ChatHit) (c : String) : List ChatHit :=
  match call_search_similar env.backend c query top_k threshold with
  | .ok rs => acc ++ rs.map fun r => { r with source_collection := some c }
  | .error _ => acc

/-- RAGChatService.search_relevant_documents_multiple from chat_service.py.
With named collections, each per-collection call forwards the
similarity_threshold keyword (which search_similar rejects) and catches the
resulting error, skipping the collection; without named collections, every
existing collection is searched without that keyword.  Collected hits are
tagged with their source collection, sorted by score descending and
truncated to top_k. -/
def search_relevant_documents_multiple (env : ChatEnv) (query : String)
    (collection_names : List String) (top_k : Nat) (threshold : ℚ) : List ChatHit :=
  if !env.useQdrant then []
  else
    let all :=
      if collection_names.isEmpty then
        (env.collections.filter fun ci => ci.2).foldl
          (fun acc ci => acc ++ (env.backend ci.1 query top_k).map
            fun r => { r with source_collection := some ci.1 }) []
      else
        collection_names.foldl (chatStep env query top_k threshold) []
    (sortDescBy (fun r => r.score) all).take top_k

/-- The maximum-score element of a list with ties resolved in favour of the
first-seen element: a later element replaces the current best only when its
score is strictly greater.  This is the selection rule the spec words as
"the maximum-score hit for its document (tie-break: first-seen)". -/
def firstMax (l : List SimilarityResult) : Option SimilarityResult :=
  l.foldl (fun b r =>
    match b with
    | none => some r
    | some v => if v.score < r.score then some r else some v) none

/-- The distinct document_id values present in a result list. -/
def docIdsOf (results : List SimilarityResult) : List String :=
  (results.filterMap getDocId).dedup

/-- Whether a hit belongs to the document with the given id. -/
def keyPred (k : String) (s : SimilarityResult) : Bool := getDocId s = some k

/-- Whether a store's outcome is a failure. -/
def isErr (s : StoreSearch) : Bool :=
  match s.outcome with
  | .ok _ => false
  | .error _ => true

/-- A vector store together with the candidate pool its backing search draws
from (the collection's similarity hits for the query vector). -/
structure PoolSearch where
  sid : Nat
  name : String
  candidates : List SimilarityResult

/-- The stores obtained by running search_qdrant over each pool with a
single shared threshold: the composition exercised by the semantic-search
endpoint when every store is reachable. -/
def storesOfPools (pools : List PoolSearch) (limit : Nat) (threshold : ℚ)
    (group : Bool) : List StoreSearch :=
  pools.map fun p => ⟨p.sid, p.name, .ok (search_qdrant p.candidates limit threshold group)⟩

/-- Two hits on the same document with scores 92 and 81 (scores scaled by
100): the spec's grouping scenario. -/
def demoHitA : SimilarityResult := ⟨"a", 92, some "chunk a", some [("document_id", "doc1")]⟩

def demoHitB : SimilarityResult := ⟨"b", 81, some "chunk b", some [("document_id", "doc1")]⟩

def demoHits : List SimilarityResult := [demoHitA, demoHitB]

/-- One pool whose only candidate scores below the maximum similarity. -/
def demoPool : List PoolSearch :=
  [⟨1, "store1", [⟨"x", 0, some "text x", some [("document_id", "doc2")]⟩]⟩]

/-- A chat environment whose search_similar body would return a hit — the
emptiness of the multi-collection search is not for lack of data. -/
def demoChatEnv : ChatEnv :=
  ⟨true, fun _ _ _ => [⟨9, "conteudo", none⟩], [("docs", true)]⟩

/-- A generation buffer containing the same question twice, differing only
in letter case: realistic output of two generation calls over overlapping
chunks. -/
def caseCollisionBuffer : List Char :=
  "**Pergunta 1:** AAAAAAAAAAAAAAAAAAAAAAAA\n\n**Pergunta 1:** aaaaaaaaaaaaaaaaaaaaaaaa".data

/-- One well-formed generated question/answer item. -/
def oneItem : List Char :=
  "**Pergunta 1:** Qual e a capital do Brasil?\n\n**Resposta 1:** Brasilia.".data

/-- Seven distinct well-formed generated items: the output of a capability
that under-delivers a request for ten. -/
def sevenItems : List Char :=
  ("**Pergunta 1:** Qual e o primeiro item?\n\n**Resposta 1:** Item um.\n\n" ++
   "**Pergunta 2:** Qual e o segundo item?\n\n**Resposta 2:** Item dois.\n\n" ++
   "**Pergunta 3:** Qual e o terceiro item?\n\n**Resposta 3:** Item tres.\n\n" ++
   "**Pergunta 4:** Qual e o quarto item?\n\n**Resposta 4:** Item quatro.\n\n" ++
   "**Pergunta 5:** Qual e o quinto item?\n\n**Resposta 5:** Item cinco.\n\n" ++
   "**Pergunta 6:** Qual e o sexto item?\n\n**Resposta 6:** Item seis.\n\n" ++
   "**Pergunta 7:** Qual e o setimo item?\n\n**Resposta 7:** Item sete.").data

/-- A short document (under 5000 characters). -/
def shortDoc : List Char :=
  "Texto curto sobre capitais do Brasil para gerar dez perguntas.".data

/-- A 5000-character document (the chunked path's smallest input). -/
def bigDoc : List Char := List.replicate 5000 'a'

/-- An environment whose generation capability returns seven unique items
regardless of the request. -/
def sevenItemEnv : GenEnv := ⟨fun _ => [], fun _ _ => sevenItems, fun _ _ => []⟩

/-- An environment whose splitter produces two overlapping chunks and whose
generation capability returns the same single item for both chunks — the
duplicate-across-chunks scenario. -/
def dupItemEnv : GenEnv :=
  ⟨fun d => [d.take 2600, d.drop 2500], fun _ _ => oneItem, fun _ _ => []⟩

/-- An environment whose splitter produces two overlapping chunks and where
only the first (2600-character) chunk yields an item, leaving a genuine
shortfall. -/
def shortfallEnv : GenEnv :=
  ⟨fun d => [d.take 2600, d.drop 2500],
   fun c _ => if c.length = 2600 then oneItem else [], fun _ _ => []⟩

/-- The top-up behaviour claim C3 asserts for short texts: whenever the
synthesis produced fewer unique items than the target, exactly one
supplementary call was issued. -/
def smallTextTopsUp (env : GenEnv) (doc : List Char) (n : Nat) : Prop :=
  specDedupCount (generate_qa_pairs env doc n).content < n →
    (generate_qa_pairs env doc n).topupCalls.length = 1

/-- The ToppingUp behaviour claim C5 asserts: the number of supplementary
calls is one exactly when the produced count scanned from the deduplicated
buffer falls short of the target. -/
def dedupShortfallTriggersTopup (env : GenEnv) (doc : List Char) (n : Nat) : Prop :=
  (generate_qa_pairs env doc n).topupCalls.length =
    if specDedupCount (rawBufferOf env doc n) < n then 1 else 0

/-! Lemmas about whitespace collapsing and stripping, leading to the fact
that the dedup key clean_qa_content computes for a match equals the
normalized signature of the stored (stripped) record. -/

/-- The normalized signature of a record as the code computes it:
whitespace runs collapsed to single spaces, ends stripped, case preserved. -/
def normSig (r : List Char) : List Char := pyStrip (collapse r)

/-- The normalized signature as claim C1 words it: whitespace collapsed and
letters lowercased. -/
def claimSig (r : List Char) : List Char := (pyStrip (collapse r)).map Char.toLower

theorem collapse_cons_not {c : Char} (cs : List Char) (h : isSpace c = false) :
    collapse (c :: cs) = c :: collapse cs := by
  cases cs with
  | nil => simp [collapse, h]
  | cons d cs => simp [collapse, h]

theorem isSpace_space : isSpace ' ' = true := rfl

theorem collapse_singleton (c : Char) :
    collapse [c] = if isSpace c then [' '] else [c] := rfl

theorem collapse_cons_cons (c d : Char) (cs : List Char) :
    collapse (c :: d :: cs) =
      if isSpace c && isSpace d then collapse (d :: cs)
      else (if isSpace c then ' ' else c) :: collapse (d :: cs) := rfl

theorem collapse_dropWhile (m : List Char) :
    collapse (m.dropWhile isSpace) = (collapse m).dropWhile isSpace := by
  induction m using collapse.induct with
  | case1 => simp [collapse]
  | case2 c h =>
    rw [List.dropWhile_cons_of_pos h]
    rw [show collapse [c] = [' '] from by simp [collapse_singleton, h]]
    rw [List.dropWhile_cons_of_pos isSpace_space]
    rfl
  | case3 c h =>
    have h' : isSpace c = false := by simpa using h
    rw [List.dropWhile_cons_of_neg h]
    rw [show collapse [c] = [c] from by simp [collapse_singleton, h']]
    rw [List.dropWhile_cons_of_neg h]
  | case4 c d cs hcd ih =>
    rw [Bool.and_eq_true] at hcd
    obtain ⟨hc, hd⟩ := hcd
    rw [show collapse (c :: d :: cs) = collapse (d :: cs) from by
      simp [collapse_cons_cons, hc, hd]]
    rw [show (c :: d :: cs).dropWhile isSpace = (d :: cs).dropWhile isSpace from
      List.dropWhile_cons_of_pos hc]
    exact ih
  | case5 c d cs hcd ih =>
    have hcd' : (isSpace c && isSpace d) = false := by
      simpa using hcd
    by_cases hc : isSpace c = true
    · have hd : isSpace d = false := by
        rcases Bool.eq_false_or_eq_true (isSpace d) with h | h
        · rw [hc, h] at hcd'
          simp at hcd'
        · exact h
      rw [show (c :: d :: cs).dropWhile isSpace = (d :: cs).dropWhile isSpace from
        List.dropWhile_cons_of_pos hc]
      rw [show collapse (c :: d :: cs) = ' ' :: collapse (d :: cs) from by
        simp [collapse_cons_cons, hc, hd]]
      rw [List.dropWhile_cons_of_pos isSpace_space]
      rw [show (d :: cs).dropWhile isSpace = d :: cs from
        List.dropWhile_cons_of_neg (by simp [hd])]
      rw [collapse_cons_not cs hd]
      rw [List.dropWhile_cons_of_neg (by simp [hd])]
    · have hc' : isSpace c = false := by simpa using hc
      rw [show (c :: d :: cs).dropWhile isSpace = c :: d :: cs from
        List.dropWhile_cons_of_neg hc]
      rw [show collapse (c :: d :: cs) = c :: collapse (d :: cs) from by
        simp [collapse_cons_cons, hcd', hc']]
      rw [List.dropWhile_cons_of_neg hc]

theorem rdropWhile_cons_eq {α : Type} [DecidableEq α] (p : α → Bool) (c : α) (l : List α) :
    List.rdropWhile p (c :: l) =
      if List.rdropWhile p l = [] then (if p c then [] else [c])
      else c :: List.rdropWhile p l := by
  by_cases h : List.rdropWhile p l = []
  · rw [if_pos h]
    have h' : List.dropWhile p l.reverse = [] := by
      have h2 := congrArg List.reverse h
      simpa [List.rdropWhile] using h2
    simp only [List.rdropWhile, List.reverse_cons, List.dropWhile_append, h',
      List.isEmpty_nil]
    cases hp : p c
    · simp [List.dropWhile_cons, hp]
    · simp [List.dropWhile_cons, hp]
  · rw [if_neg h]
    have h' : ¬ List.dropWhile p l.reverse = [] := by
      intro hh
      apply h
      simp [List.rdropWhile, hh]
    simp only [List.rdropWhile, List.reverse_cons, List.dropWhile_append]
    rw [if_neg (by simpa [List.isEmpty_iff] using h')]
    simp

theorem collapse_allSpace (l : List Char) :
    (∀ x ∈ collapse l, isSpace x = true) ↔ ∀ x ∈ l, isSpace x = true := by
  induction l using collapse.induct with
  | case1 => simp [collapse]
  | case2 c h => simp [collapse_singleton, h, isSpace_space]
  | case3 c h =>
    have h' : isSpace c = false := by simpa using h
    simp [collapse_singleton, h']
  | case4 c d cs hcd ih =>
    rw [Bool.and_eq_true] at hcd
    obtain ⟨hc, hd⟩ := hcd
    rw [show collapse (c :: d :: cs) = collapse (d :: cs) from by
      simp [collapse_cons_cons, hc, hd]]
    rw [ih, List.forall_mem_cons (l := d :: cs)]
    simp [hc]
  | case5 c d cs hcd ih =>
    have hcd' : (isSpace c && isSpace d) = false := by simpa using hcd
    rw [show collapse (c :: d :: cs) =
        (if isSpace c then ' ' else c) :: collapse (d :: cs) from by
      simp [collapse_cons_cons, hcd']]
    have hcc : (isSpace (if isSpace c then ' ' else c) = true) ↔ (isSpace c = true) := by
      by_cases hc : isSpace c = true
      · simp [hc, isSpace_space]
      · simp [hc]
    rw [List.forall_mem_cons, List.forall_mem_cons (l := d :: cs), ih, hcc]

theorem collapse_rdropWhile (m : List Char) :
    collapse (List.rdropWhile isSpace m) = List.rdropWhile isSpace (collapse m) := by
  induction m using collapse.induct with
  | case1 => simp [collapse]
  | case2 c h =>
    rw [List.rdropWhile_singleton, if_pos h]
    rw [show collapse [c] = [' '] from by simp [collapse_singleton, h]]
    rw [List.rdropWhile_singleton, if_pos isSpace_space]
    rfl
  | case3 c h =>
    have h' : isSpace c = false := by simpa using h
    rw [List.rdropWhile_singleton, if_neg h]
    rw [show collapse [c] = [c] from by simp [collapse_singleton, h']]
    rw [List.rdropWhile_singleton, if_neg h]
  | case4 c d cs hcd ih =>
    rw [Bool.and_eq_true] at hcd
    obtain ⟨hc, hd⟩ := hcd
    rw [show collapse (c :: d :: cs) = collapse (d :: cs) from by
      simp [collapse_cons_cons, hc, hd]]
    by_cases hnil : List.rdropWhile isSpace (d :: cs) = []
    · rw [rdropWhile_cons_eq, if_pos hnil, if_pos hc]
      have hall : ∀ x ∈ (d :: cs), isSpace x = true :=
        List.rdropWhile_eq_nil_iff.mp hnil
      have : List.rdropWhile isSpace (collapse (d :: cs)) = [] :=
        List.rdropWhile_eq_nil_iff.mpr ((collapse_allSpace (d :: cs)).mpr hall)
      rw [this]
      rfl
    · rw [rdropWhile_cons_eq, if_neg hnil]
      have hcs : ¬ List.rdropWhile isSpace cs = [] := by
        intro hcs
        apply hnil
        rw [rdropWhile_cons_eq, if_pos hcs, if_pos hd]
      rw [show List.rdropWhile isSpace (d :: cs) = d :: List.rdropWhile isSpace cs from by
        rw [rdropWhile_cons_eq, if_neg hcs]]
      rw [show collapse (c :: d :: List.rdropWhile isSpace cs) =
          collapse (d :: List.rdropWhile isSpace cs) from by
        simp [collapse_cons_cons, hc, hd]]
      rw [show d :: List.rdropWhile isSpace cs = List.rdropWhile isSpace (d :: cs) from by
        rw [rdropWhile_cons_eq, if_neg hcs]]
      exact ih
  | case5 c d cs hcd ih =>
    have hcd' : (isSpace c && isSpace d) = false := by simpa using hcd
    by_cases hc : isSpace c = true
    · have hd : isSpace d = false := by
        rcases Bool.eq_false_or_eq_true (isSpace d) with h | h
        · rw [hc, h] at hcd'
          simp at hcd'
        · exact h
      have hdnotall : ¬ ∀ x ∈ (d :: cs), isSpace x = true := by
        intro hall
        rw [hall d (List.mem_cons_self d cs)] at hd
        exact absurd hd (by simp)
      have hdnil : ¬ List.rdropWhile isSpace (d :: cs) = [] := by
        rw [List.rdropWhile_eq_nil_iff]
        exact hdnotall
      have hcolnil : ¬ List.rdropWhile isSpace (collapse (d :: cs)) = [] := by
        rw [List.rdropWhile_eq_nil_iff, collapse_allSpace]
        exact hdnotall
      rw [show collapse (c :: d :: cs) = ' ' :: collapse (d :: cs) from by
        simp [collapse_cons_cons, hc, hd]]
      rw [show List.rdropWhile isSpace (' ' :: collapse (d :: cs)) =
          ' ' :: List.rdropWhile isSpace (collapse (d :: cs)) from by
        rw [rdropWhile_cons_eq, if_neg hcolnil]]
      rw [show List.rdropWhile isSpace (c :: d :: cs) =
          c :: List.rdropWhile isSpace (d :: cs) from by
        rw [rdropWhile_cons_eq, if_neg hdnil]]
      by_cases hcs : List.rdropWhile isSpace cs = []
      · rw [show List.rdropWhile isSpace (d :: cs) = [d] from by
          rw [rdropWhile_cons_eq, if_pos hcs, if_neg (by simp [hd])]]
        rw [show collapse (c :: [d]) = ' ' :: collapse [d] from by
          simp [collapse_cons_cons, hc, hd]]
        rw [show ([d] : List Char) = List.rdropWhile isSpace (d :: cs) from by
          rw [rdropWhile_cons_eq, if_pos hcs, if_neg (by simp [hd])]]
        rw [ih]
      · rw [show List.rdropWhile isSpace (d :: cs) = d :: List.rdropWhile isSpace cs from by
          rw [rdropWhile_cons_eq, if_neg hcs]]
        rw [show collapse (c :: d :: List.rdropWhile isSpace cs) =
            ' ' :: collapse (d :: List.rdropWhile isSpace cs) from by
          simp [collapse_cons_cons, hc, hd]]
        rw [show d :: List.rdropWhile isSpace cs = List.rdropWhile isSpace (d :: cs) from by
          rw [rdropWhile_cons_eq, if_neg hcs]]
        rw [ih]
    · have hc' : isSpace c = false := by simpa using hc
      rw [show collapse (c :: d :: cs) = c :: collapse (d :: cs) from by
        simp [collapse_cons_cons, hcd', hc']]
      by_cases hnil : List.rdropWhile isSpace (collapse (d :: cs)) = []
      · have hall : ∀ x ∈ (d :: cs), isSpace x = true :=
          (collapse_allSpace (d :: cs)).mp (List.rdropWhile_eq_nil_iff.mp hnil)
        have hdnil : List.rdropWhile isSpace (d :: cs) = [] :=
          List.rdropWhile_eq_nil_iff.mpr hall
        rw [show List.rdropWhile isSpace (c :: d :: cs) = [c] from by
          rw [rdropWhile_cons_eq, if_pos hdnil, if_neg (by simp [hc'])]]
        rw [show List.rdropWhile isSpace (c :: collapse (d :: cs)) = [c] from by
          rw [rdropWhile_cons_eq, if_pos hnil, if_neg (by simp [hc'])]]
        rw [show collapse [c] = [c] from by simp [collapse_singleton, hc']]
      · have hdnil : ¬ List.rdropWhile isSpace (d :: cs) = [] := by
          rw [List.rdropWhile_eq_nil_iff]
          rw [List.rdropWhile_eq_nil_iff, collapse_allSpace] at hnil
          exact hnil
        rw [show List.rdropWhile isSpace (c :: collapse (d :: cs)) =
            c :: List.rdropWhile isSpace (collapse (d :: cs)) from by
          rw [rdropWhile_cons_eq, if_neg hnil]]
        rw [show List.rdropWhile isSpace (c :: d :: cs) =
            c :: List.rdropWhile isSpace (d :: cs) from by
          rw [rdropWhile_cons_eq, if_neg hdnil]]
        rw [collapse_cons_not _ hc']
        rw [ih]

/-- The dedup key clean_qa_content computes from a raw match equals the
normalized signature of the stripped record it stores. -/
theorem normSig_pyStrip (m : List Char) : normSig (pyStrip m) = pyStrip (collapse m) := by
  have h1 : collapse (pyStrip m) =
      List.rdropWhile isSpace (List.dropWhile isSpace (collapse m)) := by
    rw [pyStrip, collapse_rdropWhile, collapse_dropWhile]
  rw [normSig, pyStrip, h1]
  have hidem : List.dropWhile isSpace (List.dropWhile isSpace (collapse m)) =
      List.dropWhile isSpace (collapse m) := List.dropWhile_idempotent _ _
  have hfix : List.dropWhile isSpace
      (List.rdropWhile isSpace (List.dropWhile isSpace (collapse m))) =
      List.rdropWhile isSpace (List.dropWhile isSpace (collapse m)) := by
    cases hy : List.dropWhile isSpace (collapse m) with
    | nil => simp
    | cons y ys =>
      have hy' : isSpace y = false := by
        have hdw := List.dropWhile_idempotent isSpace (collapse m)
        rw [hy] at hdw
        cases hyy : isSpace y
        · rfl
        · exfalso
          rw [List.dropWhile_cons_of_pos hyy] at hdw
          have hsuf := List.dropWhile_suffix (l := ys) isSpace
          rw [hdw] at hsuf
          have hlen := hsuf.sublist.length_le
          simp at hlen
      rw [rdropWhile_cons_eq]
      by_cases hys : List.rdropWhile isSpace ys = []
      · rw [if_pos hys, if_neg (by simp [hy'])]
        rw [List.dropWhile_cons_of_neg (by simp [hy'])]
      · rw [if_neg hys]
        rw [List.dropWhile_cons_of_neg (by simp [hy'])]
  rw [hfix, List.rdropWhile_idempotent, pyStrip]

/-- Invariant of clean_qa_content's uniqueness fold: the seen keys are
exactly the normalized signatures of the stored records, in order, and stay
distinct; the record count grows by at most one per match. -/
theorem cleanFold_invariant (ms : List (List Char))
    (acc : List (List Char) × List (List Char))
    (hmap : acc.2 = acc.1.map normSig) (hnd : acc.2.Nodup) :
    (ms.foldl cleanStep acc).2 = (ms.foldl cleanStep acc).1.map normSig ∧
      (ms.foldl cleanStep acc).2.Nodup ∧
      (ms.foldl cleanStep acc).1.length ≤ acc.1.length + ms.length := by
  induction ms generalizing acc with
  | nil => exact ⟨hmap, hnd, by simp⟩
  | cons m ms ih =>
    simp only [List.foldl_cons]
    by_cases hcond : pyStrip (collapse m) ∉ acc.2 ∧ 20 < (pyStrip (collapse m)).length
    · have hstep : cleanStep acc m =
          (acc.1 ++ [pyStrip m], acc.2 ++ [pyStrip (collapse m)]) := by
        simp only [cleanStep]
        rw [if_pos hcond]
      rw [hstep]
      have hmap2 : acc.2 ++ [pyStrip (collapse m)] =
          (acc.1 ++ [pyStrip m]).map normSig := by
        rw [List.map_append, ← hmap]
        simp [normSig_pyStrip]
      have hnd2 : (acc.2 ++ [pyStrip (collapse m)]).Nodup := by
        rw [List.nodup_append]
        refine ⟨hnd, List.nodup_singleton _, ?_⟩
        intro x hx hx2
        rw [List.mem_singleton] at hx2
        rw [hx2] at hx
        exact hcond.1 hx
      obtain ⟨a, b, c⟩ := ih (acc.1 ++ [pyStrip m], acc.2 ++ [pyStrip (collapse m)]) hmap2 hnd2
      refine ⟨a, b, ?_⟩
      simp only [List.length_append, List.length_singleton, List.length_cons,
        List.length_nil] at c ⊢
      omega
    · have hstep : cleanStep acc m = acc := by
        simp only [cleanStep]
        rw [if_neg hcond]
      rw [hstep]
      obtain ⟨a, b, c⟩ := ih acc hmap hnd
      refine ⟨a, b, ?_⟩
      simp only [List.length_cons] at c ⊢
      omega

/-- Claim C1 as stated is false: clean_qa_content's dedup key preserves
letter case, so two records that differ only in case are both returned and
share the lowercased normalized signature of the claim. -/
theorem c1_lowercase_signature_cex :
    ¬ ((clean_qa_records caseCollisionBuffer 2).length ≤ 2 ∧
      (clean_qa_records caseCollisionBuffer 2).Pairwise
        fun a b => claimSig a ≠ claimSig b) := by
  decide

/-- Claim C1 (amended): for every buffer and every target_count > 0, the
record set finalised by clean_qa_content has at most target_count records
and no two records share a normalized signature, where the signature is the
record text with whitespace runs collapsed and ends stripped, case
preserved (the code's dedup key is case sensitive). -/
theorem c1_clean_output_bounded_and_dedup (content : List Char) (n : Nat)
    (hn : 0 < n) :
    (clean_qa_records content n).length ≤ n ∧
      (clean_qa_records content n).Pairwise (fun a b => normSig a ≠ normSig b) := by
  unfold clean_qa_records
  by_cases hc : content.isEmpty
  · simp [hc]
  · rw [if_neg hc]
    obtain ⟨hmap, hnd, hlen⟩ :=
      cleanFold_invariant ((matchesOf content).take n) ([], []) rfl List.nodup_nil
    refine ⟨?_, ?_⟩
    · have h2 : (List.take n (matchesOf content)).length ≤ n :=
        List.length_take_le n (matchesOf content)
      have hlen2 : (((matchesOf content).take n).foldl cleanStep ([], [])).1.length ≤
          (List.take n (matchesOf content)).length := by simpa using hlen
      exact le_trans hlen2 h2
    · rw [hmap] at hnd
      exact List.pairwise_map.mp hnd

/-- Witness for the amended claim C1 at a concrete buffer with a duplicate
question: two matches collapse to one record, within the target bound. -/
theorem c1_witness :
    (clean_qa_records caseCollisionBuffer 5).length ≤ 5 ∧
      (clean_qa_records caseCollisionBuffer 5).Pairwise
        (fun a b => normSig a ≠ normSig b) :=
  c1_clean_output_bounded_and_dedup caseCollisionBuffer 5 (by decide)

/-- Claim C3 as stated is false: for a short text whose single direct call
yields only seven unique items against a target of ten, the code issues no
top-up call (the short-text path returns the raw output immediately). -/
theorem c3_no_topup_cex : ¬ smallTextTopsUp sevenItemEnv shortDoc 10 := by
  unfold smallTextTopsUp
  decide

/-- Claim C3 (amended): text that is non-empty after stripping and shorter
than 5000 characters is processed as a single chunk by one generation call
requesting the full target count, whose output is returned directly — no
top-up call is made and no final cleaning or truncation is applied. -/
theorem c3_small_text_direct (env : GenEnv) (doc : List Char) (n : Nat)
    (hne : pyStrip doc ≠ []) (hlen : doc.length < 5000) :
    generate_qa_pairs env doc n = ⟨env.genChunk doc n, [(doc, n)], []⟩ := by
  unfold generate_qa_pairs
  rw [if_neg hne, if_pos hlen]

/-- Witness for the amended claim C3: the 62-character document is handled
by exactly one generation call requesting all ten items and its raw output
comes back unchanged. -/
theorem c3_witness :
    generate_qa_pairs sevenItemEnv shortDoc 10 =
      ⟨sevenItems, [(shortDoc, 10)], []⟩ :=
  c3_small_text_direct sevenItemEnv shortDoc 10 (by decide) (by decide)

/-- Claim C4 as stated is false at exactly 100000 characters: the inclusive
middle bucket demands 20000 there, while the code's strict comparison
chooses the base size 15000. -/
theorem c4_boundary_cex :
    ¬ ((100000 < 100000 → dynamic_chunk_size 100000 = 15000) ∧
      (100000 ≤ 100000 ∧ 100000 ≤ 200000 → dynamic_chunk_size 100000 = 20000) ∧
      (200000 < 100000 → dynamic_chunk_size 100000 = 30000) ∧
      chunk_overlap 100000 = dynamic_chunk_size 100000 / 10) := by
  decide

/-- Claim C4 (amended): the chunk target size is a step function of the
text length with the code's boundaries — 15000 up to and including 100000
characters, 20000 above 100000 up to and including 200000, 30000 above
200000 — and the overlap is one tenth of the chosen size. -/
theorem c4_chunk_size_step (n : Nat) :
    (n ≤ 100000 → dynamic_chunk_size n = 15000) ∧
      (100000 < n → n ≤ 200000 → dynamic_chunk_size n = 20000) ∧
      (200000 < n → dynamic_chunk_size n = 30000) ∧
      chunk_overlap n = dynamic_chunk_size n / 10 := by
  refine ⟨fun h => ?_, fun h1 h2 => ?_, fun h => ?_, rfl⟩ <;>
    (unfold dynamic_chunk_size; split_ifs <;> omega)

/-- Witness for the amended claim C4 at the boundary and at one point of
each bucket. -/
theorem c4_witness :
    dynamic_chunk_size 100000 = 15000 ∧ dynamic_chunk_size 150000 = 20000 ∧
      dynamic_chunk_size 250000 = 30000 ∧ chunk_overlap 150000 = 2000 := by
  have h1 := (c4_chunk_size_step 100000).1 (by decide)
  have h2 := (c4_chunk_size_step 150000).2.1 (by decide) (by decide)
  have h3 := (c4_chunk_size_step 250000).2.2.1 (by decide)
  have h4 := (c4_chunk_size_step 150000).2.2.2
  refine ⟨h1, h2, h3, ?_⟩
  rw [h4, h2]

theorem bigDoc_cons : bigDoc = 'a' :: List.replicate 4999 'a' := by
  rw [bigDoc, show (5000 : Nat) = 4999 + 1 from by norm_num, List.replicate_succ]

theorem bigDoc_concat : bigDoc = List.replicate 4999 'a' ++ ['a'] := by
  rw [bigDoc, show (5000 : Nat) = 4999 + 1 from by norm_num, List.replicate_succ']

theorem pyStrip_bigDoc : pyStrip bigDoc = bigDoc := by
  rw [pyStrip]
  rw [show List.dropWhile isSpace bigDoc = bigDoc from by
    conv_lhs => rw [bigDoc_cons]
    rw [List.dropWhile_cons_of_neg (by decide)]
    exact bigDoc_cons.symm]
  conv_lhs => rw [bigDoc_concat]
  rw [List.rdropWhile_concat_neg isSpace (List.replicate 4999 'a') 'a' (by decide)]
  exact bigDoc_concat.symm

theorem bigDoc_strip_ne : pyStrip bigDoc ≠ [] := by
  rw [pyStrip_bigDoc, bigDoc_cons]
  exact List.cons_ne_nil _ _

theorem bigDoc_length : bigDoc.length = 5000 := by
  rw [bigDoc, List.length_replicate]

theorem bigDoc_take_length : (bigDoc.take 2600).length = 2600 := by
  rw [List.length_take, bigDoc_length]
  omega

theorem bigDoc_drop_length : (bigDoc.drop 2500).length = 2500 := by
  rw [List.length_drop, bigDoc_length]

theorem chunkdoc_dup :
    chunk_document dupItemEnv bigDoc = [bigDoc.take 2600, bigDoc.drop 2500] := by
  rw [chunk_document, if_neg bigDoc_strip_ne]
  rfl

theorem chunkdoc_shortfall :
    chunk_document shortfallEnv bigDoc = [bigDoc.take 2600, bigDoc.drop 2500] := by
  rw [chunk_document, if_neg bigDoc_strip_ne]
  rfl

theorem qa_dup : qaResultsOf dupItemEnv bigDoc 2 = [oneItem, oneItem] := by
  unfold qaResultsOf
  rw [chunkdoc_dup]
  show ([oneItem, oneItem].filter fun r => ¬(pyStrip r).isEmpty) = [oneItem, oneItem]
  decide

theorem shortfallEnv_genChunk (c : List Char) (k : Nat) :
    shortfallEnv.genChunk c k = if c.length = 2600 then oneItem else [] := rfl

theorem qa_shortfall : qaResultsOf shortfallEnv bigDoc 2 = [oneItem] := by
  unfold qaResultsOf
  rw [chunkdoc_shortfall]
  simp only [List.map_cons, List.map_nil, shortfallEnv_genChunk]
  rw [if_pos bigDoc_take_length]
  rw [if_neg (show ¬ (bigDoc.drop 2500).length = 2600 from by
    rw [bigDoc_drop_length]; decide)]
  decide

theorem raw_dup :
    rawBufferOf dupItemEnv bigDoc 2 = oneItem ++ '\n' :: '\n' :: oneItem := by
  rw [rawBufferOf, qa_dup]
  decide

theorem raw_shortfall : rawBufferOf shortfallEnv bigDoc 2 = oneItem := by
  rw [rawBufferOf, qa_shortfall]
  decide

/-- Claim C5 as stated is false: with two overlapping chunks yielding the
same single item, the raw buffer counts two markers and the code makes no
top-up call, while the deduplicated buffer of the claim counts one item and
demands a top-up of one. -/
theorem c5_dedup_count_cex : ¬ dedupShortfallTriggersTopup dupItemEnv bigDoc 2 := by
  unfold dedupShortfallTriggersTopup
  have hnotup : (generate_qa_pairs dupItemEnv bigDoc 2).topupCalls = [] := by
    simp only [generate_qa_pairs, -reduceIte]
    rw [if_neg bigDoc_strip_ne]
    rw [if_neg (show ¬ bigDoc.length < 5000 from by rw [bigDoc_length]; decide)]
    rw [if_neg (show ¬ (chunk_document dupItemEnv bigDoc).isEmpty = true from by
      rw [chunkdoc_dup]; decide)]
    rw [if_neg (show ¬ (qaResultsOf dupItemEnv bigDoc 2).isEmpty = true from by
      rw [qa_dup]; decide)]
    rw [if_neg (show ¬ countPergunta (rawBufferOf dupItemEnv bigDoc 2) < 2 from by
      rw [raw_dup]; decide)]
  rw [hnotup]
  rw [show specDedupCount (rawBufferOf dupItemEnv bigDoc 2) = 1 from by
    rw [specDedupCount, raw_dup]; decide]
  decide

/-- Claim C5 (amended): on the chunked path (text of at least 5000
characters, at least one chunk, at least one non-empty chunk output), the
shortfall is target minus the marker count of the raw (pre-deduplication)
buffer; a positive shortfall triggers exactly one supplementary call — never
more — over the 5000-character tail window of the original text, requesting
exactly the shortfall; a zero shortfall triggers none. -/
theorem c5_raw_count_single_topup (env : GenEnv) (doc : List Char) (n : Nat)
    (hne : pyStrip doc ≠ []) (hlen : 5000 ≤ doc.length)
    (hch : ¬(chunk_document env doc).isEmpty = true)
    (hqa : ¬(qaResultsOf env doc n).isEmpty = true) :
    (generate_qa_pairs env doc n).topupCalls.length ≤ 1 ∧
      (countPergunta (rawBufferOf env doc n) < n →
        (generate_qa_pairs env doc n).topupCalls =
          [(tailWindow doc, n - countPergunta (rawBufferOf env doc n))]) ∧
      (n ≤ countPergunta (rawBufferOf env doc n) →
        (generate_qa_pairs env doc n).topupCalls = []) ∧
      (tailWindow doc).length = 5000 := by
  have hlt : ¬ doc.length < 5000 := by omega
  have htw : (tailWindow doc).length = 5000 := by
    rw [tailWindow, List.length_drop]
    omega
  simp only [generate_qa_pairs]
  rw [if_neg hne, if_neg hlt, if_neg hch, if_neg hqa]
  by_cases hcnt : countPergunta (rawBufferOf env doc n) < n
  · rw [if_pos hcnt]
    exact ⟨by simp, fun _ => rfl, fun hge => absurd hcnt (by omega), htw⟩
  · rw [if_neg hcnt]
    exact ⟨by simp, fun hlt2 => absurd hlt2 hcnt, fun _ => rfl, htw⟩

/-- Witness for the amended claim C5: one of two chunks yields one item
against a target of two, so exactly one top-up call over the (whole)
5000-character tail requests the missing one. -/
theorem c5_witness :
    (generate_qa_pairs shortfallEnv bigDoc 2).topupCalls.length ≤ 1 ∧
      (generate_qa_pairs shortfallEnv bigDoc 2).topupCalls = [(tailWindow bigDoc, 1)] := by
  have h := c5_raw_count_single_topup shortfallEnv bigDoc 2
    bigDoc_strip_ne
    (by rw [bigDoc_length])
    (by rw [chunkdoc_shortfall]; decide)
    (by rw [qa_shortfall]; decide)
  refine ⟨h.1, ?_⟩
  have h2 := h.2.1 (by rw [raw_shortfall]; decide)
  rw [raw_shortfall] at h2
  rw [show (2 - countPergunta oneItem) = 1 from by decide] at h2
  exact h2

/-- Claim C9: empty or whitespace-only input yields an empty chunk list,
and generate_qa_pairs returns the empty result with no generation calls
rather than raising an error. -/
theorem c9_empty_input (env : GenEnv) (text : List Char) (n : Nat)
    (h : ∀ c ∈ text, isSpace c = true) :
    chunk_document env text = [] ∧ generate_qa_pairs env text n = ⟨[], [], []⟩ := by
  have hs : pyStrip text = [] := by
    rw [pyStrip, List.dropWhile_eq_nil_iff.mpr h]
    simp
  constructor
  · rw [chunk_document, if_pos hs]
  · unfold generate_qa_pairs
    rw [if_pos hs]

/-- Witness for claim C9 at a whitespace-only document. -/
theorem c9_witness :
    chunk_document ⟨fun _ => [], fun _ _ => [], fun _ _ => []⟩ " \n\t ".data = [] ∧
      generate_qa_pairs ⟨fun _ => [], fun _ _ => [], fun _ _ => []⟩ " \n\t ".data 3 =
        ⟨[], [], []⟩ :=
  c9_empty_input _ _ 3 (by decide)

/-! Lemmas about the retrieval aggregation: the stable descending sort, the
first-seen-maximum selection, the per-document grouping fold, and the
multi-store loop. -/

theorem sortDescBy_perm {α : Type} (f : α → ℚ) (l : List α) :
    List.Perm (sortDescBy f l) l :=
  List.perm_insertionSort _ l

theorem sortDescBy_sorted {α : Type} (f : α → ℚ) (l : List α) :
    List.Sorted (descRel f) (sortDescBy f l) :=
  List.sorted_insertionSort _ l

theorem sortDescBy_mem {α : Type} (f : α → ℚ) {l : List α} {x : α} :
    x ∈ sortDescBy f l ↔ x ∈ l :=
  (sortDescBy_perm f l).mem_iff

theorem sortDescBy_eq_of_sorted {α : Type} {f : α → ℚ} {l : List α}
    (h : List.Sorted (descRel f) l) : sortDescBy f l = l :=
  h.insertionSort_eq

theorem sortDescBy_length {α : Type} (f : α → ℚ) (l : List α) :
    (sortDescBy f l).length = l.length :=
  (sortDescBy_perm f l).length_eq

/-- The fold underlying firstMax selects an element of the list (or keeps
the start). -/
theorem firstMax_fold_mem (l : List SimilarityResult) (b : Option SimilarityResult)
    (v : SimilarityResult)
    (h : l.foldl (fun b r =>
      match b with
      | none => some r
      | some v => if v.score < r.score then some r else some v) b = some v) :
    b = some v ∨ v ∈ l := by
  induction l generalizing b with
  | nil => exact Or.inl h
  | cons r l ih =>
    rw [List.foldl_cons] at h
    rcases ih _ h with h2 | h2
    · match b, h2 with
      | none, h2 =>
        refine Or.inr ?_
        rw [Option.some.injEq] at h2
        rw [← h2]
        exact List.mem_cons_self _ _
      | some w, h2 =>
        change (if w.score < r.score then some r else some w) = some v at h2
        by_cases hc : w.score < r.score
        · rw [if_pos hc] at h2
          refine Or.inr ?_
          rw [Option.some.injEq] at h2
          rw [← h2]
          exact List.mem_cons_self _ _
        · rw [if_neg hc] at h2
          exact Or.inl h2
    · exact Or.inr (List.mem_cons_of_mem _ h2)

/-- The fold underlying firstMax selects a maximum-score element. -/
theorem firstMax_fold_max (l : List SimilarityResult) (b : Option SimilarityResult)
    (v : SimilarityResult)
    (h : l.foldl (fun b r =>
      match b with
      | none => some r
      | some v => if v.score < r.score then some r else some v) b = some v) :
    (∀ x ∈ l, x.score ≤ v.score) ∧ (∀ w, b = some w → w.score ≤ v.score) := by
  induction l generalizing b with
  | nil =>
    refine ⟨by simp, fun w hw => ?_⟩
    rw [hw, List.foldl_nil, Option.some.injEq] at h
    rw [h]
  | cons r l ih =>
    rw [List.foldl_cons] at h
    obtain ⟨ihl, ihb⟩ := ih _ h
    have hr : r.score ≤ v.score := by
      match b with
      | none => exact ihb r rfl
      | some w =>
        by_cases hc : w.score < r.score
        · refine ihb r ?_
          change (if w.score < r.score then some r else some w) = some r
          rw [if_pos hc]
        · refine le_trans (not_lt.mp hc) (ihb w ?_)
          change (if w.score < r.score then some r else some w) = some w
          rw [if_neg hc]
    refine ⟨?_, ?_⟩
    · intro x hx
      rcases List.mem_cons.mp hx with rfl | hx
      · exact hr
      · exact ihl x hx
    · intro w hw
      match b, hw with
      | some w, rfl =>
        by_cases hc : w.score < r.score
        · exact le_trans (le_of_lt hc) hr
        · refine ihb w ?_
          change (if w.score < r.score then some r else some w) = some w
          rw [if_neg hc]

/-- firstMax returns a maximum-score member of its list. -/
theorem firstMax_spec {l : List SimilarityResult} {v : SimilarityResult}
    (h : firstMax l = some v) : v ∈ l ∧ ∀ x ∈ l, x.score ≤ v.score := by
  rw [firstMax] at h
  refine ⟨?_, (firstMax_fold_max l none v h).1⟩
  rcases firstMax_fold_mem l none v h with h2 | h2
  · exact absurd h2 (by simp)
  · exact h2

/-- Appending one element updates firstMax by the strict-improvement rule. -/
theorem firstMax_append_one (xs : List SimilarityResult) (r : SimilarityResult) :
    firstMax (xs ++ [r]) =
      match firstMax xs with
      | none => some r
      | some v => if v.score < r.score then some r else some v := by
  rw [firstMax, firstMax, List.foldl_append]
  rfl

theorem updateBest_nil (k : String) (r : SimilarityResult) :
    updateBest [] k r = [(k, r)] := rfl

theorem updateBest_cons (k0 : String) (v : SimilarityResult)
    (rest : List (String × SimilarityResult)) (k : String) (r : SimilarityResult) :
    updateBest ((k0, v) :: rest) k r =
      if k0 = k then (k0, if v.score < r.score then r else v) :: rest
      else (k0, v) :: updateBest rest k r := rfl

theorem updateBest_keys (best : List (String × SimilarityResult)) (k : String)
    (r : SimilarityResult) :
    (updateBest best k r).map Prod.fst =
      if k ∈ best.map Prod.fst then best.map Prod.fst
      else best.map Prod.fst ++ [k] := by
  induction best with
  | nil => simp [updateBest_nil]
  | cons q rest ih =>
    obtain ⟨k0, v⟩ := q
    rw [updateBest_cons]
    by_cases hk : k0 = k
    · subst hk
      rw [if_pos rfl]
      simp
    · rw [if_neg hk]
      simp only [List.map_cons, ih]
      by_cases hmem : k ∈ rest.map Prod.fst
      · rw [if_pos hmem, if_pos (by simp [hmem])]
      · rw [if_neg hmem, if_neg (by simp [hmem, Ne.symm hk])]
        simp

theorem updateBest_vals_docid (best : List (String × SimilarityResult)) (k : String)
    (r : SimilarityResult) (hr : getDocId r = some k)
    (hb : ∀ p ∈ best, getDocId p.2 = some p.1) :
    ∀ p ∈ updateBest best k r, getDocId p.2 = some p.1 := by
  induction best with
  | nil =>
    intro p hp
    rw [updateBest_nil, List.mem_singleton] at hp
    rw [hp]
    exact hr
  | cons q rest ih =>
    obtain ⟨k0, v⟩ := q
    intro p hp
    rw [updateBest_cons] at hp
    by_cases hk : k0 = k
    · rw [if_pos hk] at hp
      rcases List.mem_cons.mp hp with rfl | hp
      · by_cases hsc : v.score < r.score
        · rw [if_pos hsc]
          rw [hk]
          exact hr
        · rw [if_neg hsc]
          exact hb (k0, v) (List.mem_cons_self _ _)
      · exact hb p (List.mem_cons_of_mem _ hp)
    · rw [if_neg hk] at hp
      rcases List.mem_cons.mp hp with rfl | hp
      · exact hb (k0, v) (List.mem_cons_self _ _)
      · exact ih (fun q hq => hb q (List.mem_cons_of_mem _ hq)) p hp

theorem updateBest_append (best : List (String × SimilarityResult)) (k : String)
    (r : SimilarityResult) (h : k ∉ best.map Prod.fst) :
    updateBest best k r = best ++ [(k, r)] := by
  induction best with
  | nil => rw [updateBest_nil, List.nil_append]
  | cons q rest ih =>
    obtain ⟨k0, v⟩ := q
    rw [updateBest_cons]
    have hk : ¬ k0 = k := by
      intro hk
      exact h (by rw [← hk]; simp)
    rw [if_neg hk, List.cons_append]
    rw [ih (fun hmem => h (by simp [hmem]))]

theorem updateBest_vals_mem (best : List (String × SimilarityResult)) (k : String)
    (r : SimilarityResult) :
    ∀ p ∈ updateBest best k r, p.2 ∈ best.map Prod.snd ∨ p.2 = r := by
  induction best with
  | nil =>
    intro p hp
    rw [updateBest_nil, List.mem_singleton] at hp
    exact Or.inr (by rw [hp])
  | cons q rest ih =>
    obtain ⟨k0, v⟩ := q
    intro p hp
    rw [updateBest_cons] at hp
    by_cases hk : k0 = k
    · rw [if_pos hk] at hp
      rcases List.mem_cons.mp hp with rfl | hp
      · by_cases hsc : v.score < r.score
        · rw [if_pos hsc]
          exact Or.inr rfl
        · rw [if_neg hsc]
          exact Or.inl (by simp)
      · exact Or.inl (by simp [List.mem_map_of_mem Prod.snd hp])
    · rw [if_neg hk] at hp
      rcases List.mem_cons.mp hp with rfl | hp
      · exact Or.inl (by simp)
      · rcases ih p hp with h2 | h2
        · exact Or.inl (by simp [h2])
        · exact Or.inr h2

theorem updateBest_firstMax (best : List (String × SimilarityResult))
    (seen : List SimilarityResult) (k : String) (r : SimilarityResult)
    (hr : getDocId r = some k)
    (hnd : (best.map Prod.fst).Nodup)
    (hfm : ∀ p ∈ best, firstMax (seen.filter (keyPred p.1)) = some p.2)
    (hempty : k ∉ best.map Prod.fst → seen.filter (keyPred k) = []) :
    ∀ p ∈ updateBest best k r,
      firstMax ((seen ++ [r]).filter (keyPred p.1)) = some p.2 := by
  induction best with
  | nil =>
    intro p hp
    rw [updateBest_nil, List.mem_singleton] at hp
    rw [hp]
    rw [List.filter_append]
    rw [show List.filter (keyPred k) [r] = [r] from by simp [List.filter, keyPred, hr]]
    rw [hempty (by simp)]
    rfl
  | cons q rest ih =>
    obtain ⟨k0, v⟩ := q
    intro p hp
    rw [updateBest_cons] at hp
    by_cases hk : k0 = k
    · subst hk
      rw [if_pos rfl] at hp
      rcases List.mem_cons.mp hp with rfl | hp
      · rw [List.filter_append]
        rw [show List.filter (keyPred k0) [r] = [r] from by
          simp [List.filter, keyPred, hr]]
        rw [firstMax_append_one]
        rw [hfm (k0, v) (List.mem_cons_self _ _)]
        change (if v.score < r.score then some r else some v) =
          some (if v.score < r.score then r else v)
        split_ifs <;> rfl
      · have hp1 : ¬ p.1 = k0 := by
          intro heq
          have hmem : p.1 ∈ rest.map Prod.fst := List.mem_map_of_mem Prod.fst hp
          rw [heq] at hmem
          exact (List.nodup_cons.mp (by simpa using hnd)).1 hmem
        rw [List.filter_append]
        rw [show List.filter (keyPred p.1) [r] = [] from by
          simp [List.filter, keyPred, hr, Ne.symm hp1]]
        rw [List.append_nil]
        exact hfm p (List.mem_cons_of_mem _ hp)
    · rw [if_neg hk] at hp
      rcases List.mem_cons.mp hp with rfl | hp
      · rw [List.filter_append]
        rw [show List.filter (keyPred k0) [r] = [] from by
          simp [List.filter, keyPred, hr, Ne.symm hk]]
        rw [List.append_nil]
        exact hfm (k0, v) (List.mem_cons_self _ _)
      · refine ih ((List.nodup_cons.mp (by simpa using hnd)).2)
          (fun q hq => hfm q (List.mem_cons_of_mem _ hq)) ?_ p hp
        intro hkrest
        refine hempty ?_
        intro hkbest
        rw [List.map_cons] at hkbest
        rcases List.mem_cons.mp hkbest with heq | hmem
        · exact hk heq.symm
        · exact hkrest hmem

theorem groupStep_none (best : List (String × SimilarityResult))
    (r : SimilarityResult) (h : getDocId r = none) : groupStep best r = best := by
  rw [groupStep, h]

theorem groupStep_some (best : List (String × SimilarityResult))
    (r : SimilarityResult) (k : String) (h : getDocId r = some k) :
    groupStep best r = updateBest best k r := by
  rw [groupStep, h]

/-- The invariant of group_results_by_document's fold over the processed
prefix: the keys are distinct, each entry's value belongs to its key, the
keys are exactly the document ids seen so far, and each entry's value is the
first-seen maximum of its document's hits among those seen so far. -/
theorem groupFold_invariant (l : List SimilarityResult) :
    ∀ (seen : List SimilarityResult) (best : List (String × SimilarityResult)),
    (best.map Prod.fst).Nodup →
    (∀ p ∈ best, getDocId p.2 = some p.1) →
    (∀ k : String, k ∈ best.map Prod.fst ↔ ∃ s ∈ seen, getDocId s = some k) →
    (∀ p ∈ best, firstMax (seen.filter (keyPred p.1)) = some p.2) →
    ((l.foldl groupStep best).map Prod.fst).Nodup ∧
      (∀ p ∈ l.foldl groupStep best, getDocId p.2 = some p.1) ∧
      (∀ k : String, k ∈ (l.foldl groupStep best).map Prod.fst ↔
        ∃ s ∈ seen ++ l, getDocId s = some k) ∧
      (∀ p ∈ l.foldl groupStep best,
        firstMax ((seen ++ l).filter (keyPred p.1)) = some p.2) := by
  induction l with
  | nil =>
    intro seen best h1 h2 h3 h4
    rw [List.foldl_nil, List.append_nil]
    exact ⟨h1, h2, h3, h4⟩
  | cons r l ih =>
    intro seen best h1 h2 h3 h4
    rw [List.foldl_cons]
    cases hdoc : getDocId r with
    | none =>
      rw [groupStep_none best r hdoc]
      have h3b : ∀ k, k ∈ best.map Prod.fst ↔
          ∃ s ∈ seen ++ [r], getDocId s = some k := by
        intro k
        rw [h3 k]
        constructor
        · rintro ⟨s, hs, h⟩
          exact ⟨s, by simp [hs], h⟩
        · rintro ⟨s, hs, h⟩
          rcases List.mem_append.mp hs with hs | hs
          · exact ⟨s, hs, h⟩
          · rw [List.mem_singleton] at hs
            subst hs
            rw [hdoc] at h
            cases h
      have h4b : ∀ p ∈ best, firstMax ((seen ++ [r]).filter (keyPred p.1)) = some p.2 := by
        intro p hp
        rw [List.filter_append,
          show List.filter (keyPred p.1) [r] = [] from by simp [List.filter, keyPred, hdoc],
          List.append_nil]
        exact h4 p hp
      have hres := ih (seen ++ [r]) best h1 h2 h3b h4b
      rwa [List.append_assoc, List.singleton_append] at hres
    | some k =>
      rw [groupStep_some best r k hdoc]
      have h1b : ((updateBest best k r).map Prod.fst).Nodup := by
        rw [updateBest_keys]
        by_cases hmem : k ∈ best.map Prod.fst
        · rw [if_pos hmem]
          exact h1
        · rw [if_neg hmem, List.nodup_append]
          refine ⟨h1, List.nodup_singleton _, ?_⟩
          intro x hx hx2
          rw [List.mem_singleton] at hx2
          subst hx2
          exact hmem hx
      have h2b := updateBest_vals_docid best k r hdoc h2
      have hempty : k ∉ best.map Prod.fst → seen.filter (keyPred k) = [] := by
        intro hnot
        rw [List.filter_eq_nil_iff]
        intro s hs
        simp only [keyPred, decide_eq_true_eq]
        intro hsk
        exact hnot ((h3 k).mpr ⟨s, hs, hsk⟩)
      have h4b := updateBest_firstMax best seen k r hdoc h1 h4 hempty
      have h3b : ∀ k2, k2 ∈ (updateBest best k r).map Prod.fst ↔
          ∃ s ∈ seen ++ [r], getDocId s = some k2 := by
        intro k2
        rw [updateBest_keys]
        constructor
        · intro hmem2
          by_cases hmem : k ∈ best.map Prod.fst
          · rw [if_pos hmem] at hmem2
            obtain ⟨s, hs, hdk⟩ := (h3 k2).mp hmem2
            exact ⟨s, by simp [hs], hdk⟩
          · rw [if_neg hmem] at hmem2
            rcases List.mem_append.mp hmem2 with hmem2 | hmem2
            · obtain ⟨s, hs, hdk⟩ := (h3 k2).mp hmem2
              exact ⟨s, by simp [hs], hdk⟩
            · rw [List.mem_singleton] at hmem2
              subst hmem2
              exact ⟨r, by simp, hdoc⟩
        · rintro ⟨s, hs, hdk⟩
          rcases List.mem_append.mp hs with hs | hs
          · have hin : k2 ∈ best.map Prod.fst := (h3 k2).mpr ⟨s, hs, hdk⟩
            by_cases hmem : k ∈ best.map Prod.fst
            · rw [if_pos hmem]
              exact hin
            · rw [if_neg hmem]
              exact List.mem_append_left _ hin
          · rw [List.mem_singleton] at hs
            subst hs
            rw [hdoc, Option.some.injEq] at hdk
            subst hdk
            by_cases hmem : k ∈ best.map Prod.fst
            · rw [if_pos hmem]
              exact hmem
            · rw [if_neg hmem]
              exact List.mem_append_right _ (by simp)
      have hres := ih (seen ++ [r]) (updateBest best k r) h1b h2b h3b h4b
      rwa [List.append_assoc, List.singleton_append] at hres

/-- Values collected by the grouping fold come from the start or the list. -/
theorem groupFold_vals_mem (l : List SimilarityResult) :
    ∀ (best : List (String × SimilarityResult)),
    ∀ v ∈ (l.foldl groupStep best).map Prod.snd, v ∈ best.map Prod.snd ∨ v ∈ l := by
  induction l with
  | nil =>
    intro best v hv
    exact Or.inl hv
  | cons r l ih =>
    intro best v hv
    rw [List.foldl_cons] at hv
    cases hdoc : getDocId r with
    | none =>
      rw [groupStep_none best r hdoc] at hv
      rcases ih best v hv with h | h
      · exact Or.inl h
      · exact Or.inr (List.mem_cons_of_mem _ h)
    | some k =>
      rw [groupStep_some best r k hdoc] at hv
      rcases ih (updateBest best k r) v hv with h | h
      · rw [List.mem_map] at h
        obtain ⟨p, hp, hpv⟩ := h
        rcases updateBest_vals_mem best k r p hp with h2 | h2
        · exact Or.inl (by rw [← hpv]; exact h2)
        · refine Or.inr ?_
          rw [← hpv, h2]
          exact List.mem_cons_self _ _
      · exact Or.inr (List.mem_cons_of_mem _ h)

/-- The standing instance of the fold invariant, started from the empty
dictionary over the whole result list. -/
theorem groupFold_main (results : List SimilarityResult) :
    (((results.foldl groupStep []).map Prod.fst).Nodup ∧
      (∀ p ∈ results.foldl groupStep [], getDocId p.2 = some p.1)) ∧
      (∀ k : String, k ∈ (results.foldl groupStep []).map Prod.fst ↔
        ∃ s ∈ results, getDocId s = some k) ∧
      (∀ p ∈ results.foldl groupStep [],
        firstMax (results.filter (keyPred p.1)) = some p.2) := by
  obtain ⟨h1, h2, h3, h4⟩ := groupFold_invariant results [] []
    (by simp) (by simp) (by simp) (by simp)
  rw [List.nil_append] at h3 h4
  exact ⟨⟨h1, h2⟩, h3, h4⟩

theorem best_vals_docids (best : List (String × SimilarityResult))
    (hdoc : ∀ p ∈ best, getDocId p.2 = some p.1) :
    (best.map Prod.snd).filterMap getDocId = best.map Prod.fst := by
  induction best with
  | nil => simp
  | cons q rest ih =>
    rw [List.map_cons, List.map_cons, List.filterMap_cons]
    rw [hdoc q (List.mem_cons_self _ _)]
    rw [ih fun p hp => hdoc p (List.mem_cons_of_mem _ hp)]

theorem best_vals_filter_le_one (best : List (String × SimilarityResult)) (k : String)
    (hnd : (best.map Prod.fst).Nodup)
    (hdoc : ∀ p ∈ best, getDocId p.2 = some p.1) :
    ((best.map Prod.snd).filter (keyPred k)).length ≤ 1 := by
  induction best with
  | nil => simp
  | cons q rest ih =>
    obtain ⟨k0, v⟩ := q
    rw [List.map_cons] at hnd
    rw [List.map_cons, List.filter_cons]
    have hv : getDocId v = some k0 := hdoc (k0, v) (List.mem_cons_self _ _)
    by_cases hk : k0 = k
    · rw [if_pos (by simp [keyPred, hv, hk])]
      rw [List.length_cons]
      have hrest : (rest.map Prod.snd).filter (keyPred k) = [] := by
        rw [List.filter_eq_nil_iff]
        intro v2 hv2
        rw [List.mem_map] at hv2
        obtain ⟨p, hp, rfl⟩ := hv2
        simp only [keyPred, decide_eq_true_eq]
        rw [hdoc p (List.mem_cons_of_mem _ hp), Option.some.injEq]
        intro hcon
        refine (List.nodup_cons.mp hnd).1 ?_
        show k0 ∈ List.map Prod.fst rest
        rw [show k0 = p.1 from by rw [hcon, hk]]
        exact List.mem_map_of_mem Prod.fst hp
      rw [hrest]
      simp
    · rw [if_neg (by simp [keyPred, hv, hk])]
      exact ih (List.nodup_cons.mp hnd).2 fun p hp => hdoc p (List.mem_cons_of_mem _ hp)

theorem group_mem_firstMax (results : List SimilarityResult) (limit : Nat) :
    ∀ r ∈ group_results_by_document results limit, ∃ k, getDocId r = some k ∧
      firstMax (results.filter (keyPred k)) = some r := by
  intro r hr
  unfold group_results_by_document at hr
  by_cases hres : results.isEmpty
  · rw [if_pos hres] at hr
    rw [List.isEmpty_iff] at hres
    rw [hres] at hr
    exact absurd hr (List.not_mem_nil r)
  · rw [if_neg hres] at hr
    have hr2 : r ∈ (results.foldl groupStep []).map Prod.snd :=
      (sortDescBy_mem _).mp (List.mem_of_mem_take hr)
    rw [List.mem_map] at hr2
    obtain ⟨p, hp, rfl⟩ := hr2
    obtain ⟨⟨_, h2⟩, _, h4⟩ := groupFold_main results
    exact ⟨p.1, h2 p hp, h4 p hp⟩

theorem group_mem_sub (results : List SimilarityResult) (limit : Nat) :
    ∀ r ∈ group_results_by_document results limit, r ∈ results := by
  intro r hr
  unfold group_results_by_document at hr
  by_cases hres : results.isEmpty
  · rw [if_pos hres] at hr
    exact hr
  · rw [if_neg hres] at hr
    have hr2 : r ∈ (results.foldl groupStep []).map Prod.snd :=
      (sortDescBy_mem _).mp (List.mem_of_mem_take hr)
    rcases groupFold_vals_mem results [] r hr2 with h | h
    · exact absurd h (by simp)
    · exact h

theorem group_sorted (results : List SimilarityResult) (limit : Nat) :
    List.Sorted (descRel fun r => r.score) (group_results_by_document results limit) := by
  unfold group_results_by_document
  by_cases hres : results.isEmpty
  · rw [if_pos hres]
    rw [List.isEmpty_iff] at hres
    rw [hres]
    exact List.sorted_nil
  · rw [if_neg hres]
    exact List.Pairwise.sublist (List.take_sublist _ _) (sortDescBy_sorted _ _)

theorem group_length_le_limit (results : List SimilarityResult) (limit : Nat) :
    (group_results_by_document results limit).length ≤ limit := by
  unfold group_results_by_document
  by_cases hres : results.isEmpty
  · rw [if_pos hres]
    rw [List.isEmpty_iff] at hres
    rw [hres]
    simp
  · rw [if_neg hres]
    exact List.length_take_le _ _

theorem group_length_le_docIds (results : List SimilarityResult) (limit : Nat) :
    (group_results_by_document results limit).length ≤ (docIdsOf results).length := by
  unfold group_results_by_document
  by_cases hres : results.isEmpty
  · rw [if_pos hres]
    rw [List.isEmpty_iff] at hres
    rw [hres]
    simp
  · rw [if_neg hres]
    obtain ⟨⟨h1, h2⟩, h3, _⟩ := groupFold_main results
    have hsub : (results.foldl groupStep []).map Prod.fst ⊆ docIdsOf results := by
      intro k hk
      obtain ⟨s, hs, hds⟩ := (h3 k).mp hk
      rw [docIdsOf, List.mem_dedup]
      exact List.mem_filterMap.mpr ⟨s, hs, hds⟩
    have e1 : ((sortDescBy (fun r => r.score)
        ((results.foldl groupStep []).map Prod.snd)).take limit).length ≤
        (sortDescBy (fun r => r.score)
          ((results.foldl groupStep []).map Prod.snd)).length := by
      rw [List.length_take]
      exact min_le_right _ _
    rw [sortDescBy_length, List.length_map,
      show (results.foldl groupStep []).length =
        ((results.foldl groupStep []).map Prod.fst).length from
        (List.length_map _ _).symm] at e1
    exact le_trans e1 (List.subperm_of_subset h1 hsub).length_le

theorem group_filter_le_one (results : List SimilarityResult) (limit : Nat)
    (k : String) :
    ((group_results_by_document results limit).filter (keyPred k)).length ≤ 1 := by
  unfold group_results_by_document
  by_cases hres : results.isEmpty
  · rw [if_pos hres]
    rw [List.isEmpty_iff] at hres
    rw [hres]
    simp
  · rw [if_neg hres]
    obtain ⟨⟨h1, h2⟩, _, _⟩ := groupFold_main results
    have hsl : List.Sublist
        (((sortDescBy (fun r => r.score)
          ((results.foldl groupStep []).map Prod.snd)).take limit).filter (keyPred k))
        ((sortDescBy (fun r => r.score)
          ((results.foldl groupStep []).map Prod.snd)).filter (keyPred k)) :=
      (List.take_sublist _ _).filter _
    refine le_trans hsl.length_le ?_
    rw [((sortDescBy_perm (fun r => r.score) _).filter (keyPred k)).length_eq]
    exact best_vals_filter_le_one _ k h1 h2

/-- Claim C6: grouping returns at most one hit per distinct document id (so
its size is at most the number of distinct ids present); every retained hit
carries a document id, belongs to the input, and is the maximum-score hit of
its document with ties resolved in favour of the first-seen hit; and with
grouping disabled search_qdrant passes the backing hits through unchanged,
including hits without a document id. -/
theorem c6_grouping_law (results : List SimilarityResult) (limit : Nat) :
    (∀ k, ((group_results_by_document results limit).filter (keyPred k)).length ≤ 1) ∧
      (group_results_by_document results limit).length ≤ (docIdsOf results).length ∧
      (∀ r ∈ group_results_by_document results limit, ∃ k, getDocId r = some k ∧
        r ∈ results ∧ (∀ s ∈ results, getDocId s = some k → s.score ≤ r.score) ∧
        firstMax (results.filter (keyPred k)) = some r) ∧
      (∀ r ∈ group_results_by_document results limit, getDocId r ≠ none) ∧
      (∀ cands lim thr, search_qdrant cands lim thr false = qdrant_search cands lim thr) := by
  refine ⟨group_filter_le_one results limit, group_length_le_docIds results limit,
    ?_, ?_, fun cands lim thr => rfl⟩
  · intro r hr
    obtain ⟨k, hk, hfm⟩ := group_mem_firstMax results limit r hr
    obtain ⟨hmem, hmax⟩ := firstMax_spec hfm
    refine ⟨k, hk, group_mem_sub results limit r hr, ?_, hfm⟩
    intro s hs hsk
    exact hmax s (List.mem_filter.mpr ⟨hs, by simp [keyPred, hsk]⟩)
  · intro r hr
    obtain ⟨k, hk, _⟩ := group_mem_firstMax results limit r hr
    rw [hk]
    simp

/-- Witness for claim C6 at the spec's scenario: two hits on document doc1
with scores 92 and 81 — grouping keeps exactly the higher one. -/
theorem c6_witness :
    ((group_results_by_document demoHits 10).filter (keyPred "doc1")).length ≤ 1 ∧
      (group_results_by_document demoHits 10).length ≤ (docIdsOf demoHits).length ∧
      firstMax (demoHits.filter (keyPred "doc1")) = some demoHitA := by
  refine ⟨(c6_grouping_law demoHits 10).1 "doc1", (c6_grouping_law demoHits 10).2.1, ?_⟩
  decide

theorem aggregate_false (all : List SimilarityResult) (limit : Nat) :
    aggregate all false limit = (sortDescBy (fun r => r.score) all).take limit := by
  rw [aggregate, if_neg (by simp)]

theorem aggregate_true (all : List SimilarityResult) (limit : Nat) :
    aggregate all true limit =
      group_results_by_document (sortDescBy (fun r => r.score) all) limit := by
  rw [aggregate, if_pos rfl]

/-- Grouping a list of fresh keys appends every hit to the dictionary. -/
theorem groupFold_fresh_vals (l : List SimilarityResult) :
    ∀ best : List (String × SimilarityResult),
    (∀ r ∈ l, ∃ k, getDocId r = some k ∧ k ∉ best.map Prod.fst) →
    (l.filterMap getDocId).Nodup →
    (l.foldl groupStep best).map Prod.snd = best.map Prod.snd ++ l := by
  induction l with
  | nil =>
    intro best _ _
    rw [List.foldl_nil, List.append_nil]
  | cons r l ih =>
    intro best hfresh hnd
    obtain ⟨k, hk, hknotin⟩ := hfresh r (List.mem_cons_self _ _)
    rw [List.foldl_cons, groupStep_some best r k hk, updateBest_append best k r hknotin]
    have hnd2 : (l.filterMap getDocId).Nodup ∧ k ∉ l.filterMap getDocId := by
      rw [List.filterMap_cons, hk] at hnd
      exact ⟨(List.nodup_cons.mp hnd).2, (List.nodup_cons.mp hnd).1⟩
    have hfresh2 : ∀ r2 ∈ l, ∃ k2, getDocId r2 = some k2 ∧
        k2 ∉ (best ++ [(k, r)]).map Prod.fst := by
      intro r2 hr2
      obtain ⟨k2, hk2, hk2notin⟩ := hfresh r2 (List.mem_cons_of_mem _ hr2)
      refine ⟨k2, hk2, ?_⟩
      rw [List.map_append]
      intro hmem
      rcases List.mem_append.mp hmem with h | h
      · exact hk2notin h
      · rw [show List.map Prod.fst [(k, r)] = [k] from rfl, List.mem_singleton] at h
        exact hnd2.2 (List.mem_filterMap.mpr ⟨r2, hr2, by rw [hk2, h]⟩)
    rw [ih (best ++ [(k, r)]) hfresh2 hnd2.1]
    rw [List.map_append, show List.map Prod.snd [(k, r)] = [r] from rfl]
    rw [List.append_assoc, List.singleton_append]

theorem group_docids_nodup (results : List SimilarityResult) (limit : Nat) :
    ((group_results_by_document results limit).filterMap getDocId).Nodup := by
  unfold group_results_by_document
  by_cases hres : results.isEmpty
  · rw [if_pos hres]
    rw [List.isEmpty_iff] at hres
    rw [hres]
    simp
  · rw [if_neg hres]
    obtain ⟨⟨h1, h2⟩, _, _⟩ := groupFold_main results
    have hperm : List.Perm
        ((sortDescBy (fun r => r.score)
          ((results.foldl groupStep []).map Prod.snd)).filterMap getDocId)
        (((results.foldl groupStep []).map Prod.snd).filterMap getDocId) :=
      (sortDescBy_perm _ _).filterMap _
    have hnd2 : ((sortDescBy (fun r => r.score)
        ((results.foldl groupStep []).map Prod.snd)).filterMap getDocId).Nodup := by
      rw [hperm.nodup_iff, best_vals_docids _ h2]
      exact h1
    exact List.Nodup.sublist ((List.take_sublist _ _).filterMap _) hnd2

theorem group_all_docid (results : List SimilarityResult) (limit : Nat) :
    ∀ r ∈ group_results_by_document results limit, getDocId r ≠ none := by
  intro r hr
  obtain ⟨k, hk, _⟩ := group_mem_firstMax results limit r hr
  rw [hk]
  simp

/-- Re-grouping an already grouped list (distinct document ids, all present)
returns it unchanged. -/
theorem group_group_eq (g : List SimilarityResult) (limit : Nat)
    (hdoc : ∀ r ∈ g, getDocId r ≠ none)
    (hnd : (g.filterMap getDocId).Nodup)
    (hsorted : List.Sorted (descRel fun r => r.score) g)
    (hlen : g.length ≤ limit) :
    group_results_by_document g limit = g := by
  unfold group_results_by_document
  by_cases hg : g.isEmpty
  · rw [if_pos hg]
  · rw [if_neg hg]
    have hfresh : ∀ r ∈ g, ∃ k, getDocId r = some k ∧
        k ∉ (([] : List (String × SimilarityResult)).map Prod.fst) := by
      intro r hr
      cases hd : getDocId r with
      | none => exact absurd hd (hdoc r hr)
      | some k => exact ⟨k, rfl, by simp⟩
    rw [groupFold_fresh_vals g [] hfresh hnd]
    rw [show List.map Prod.snd ([] : List (String × SimilarityResult)) = [] from rfl,
      List.nil_append]
    rw [sortDescBy_eq_of_sorted hsorted]
    exact List.take_of_length_le hlen

/-- Claim C10: the aggregation stage is idempotent — re-applying it to its
own output leaves the output unchanged, for either grouping mode and any
limit (the stage is a pure function, so running it twice on the same inputs
trivially yields the identical ordered result). -/
theorem c10_aggregate_idempotent (all : List SimilarityResult) (group : Bool)
    (limit : Nat) :
    aggregate (aggregate all group limit) group limit = aggregate all group limit := by
  cases group with
  | false =>
    rw [aggregate_false, aggregate_false]
    have hs : List.Sorted (descRel fun r => r.score)
        ((sortDescBy (fun r => r.score) all).take limit) :=
      List.Pairwise.sublist (List.take_sublist _ _) (sortDescBy_sorted _ _)
    rw [sortDescBy_eq_of_sorted hs, List.take_take, min_self]
  | true =>
    rw [aggregate_true, aggregate_true]
    have h1 := group_sorted (sortDescBy (fun r => r.score) all) limit
    rw [sortDescBy_eq_of_sorted h1]
    exact group_group_eq _ limit (group_all_docid _ _) (group_docids_nodup _ _) h1
      (group_length_le_limit _ _)

theorem errList_cons (s : StoreSearch) (rest : List StoreSearch) :
    errList (s :: rest) = (match s.outcome with
      | .ok _ => errList rest
      | .error e => e :: errList rest) := by
  rw [errList, List.filterMap_cons]
  cases s.outcome <;> rfl

theorem errList_length (stores : List StoreSearch) :
    (errList stores).length = (stores.filter isErr).length := by
  induction stores with
  | nil => rfl
  | cons s rest ih =>
    rw [errList_cons, List.filter_cons]
    cases h : s.outcome with
    | ok rs => simp [isErr, h, ih]
    | error e => simp [isErr, h, ih]

/-- The per-store loop of search_multiple_vector_stores unrolled: successful
stores contribute their tagged hits in store order, failing stores their log
entry, independently of one another. -/
theorem smvs_fold (stores : List StoreSearch) :
    ∀ acc : List SimilarityResult × List String,
    stores.foldl smvsStep acc =
      (acc.1 ++ (stores.map okHits).flatten, acc.2 ++ errList stores) := by
  induction stores with
  | nil =>
    intro acc
    simp [errList]
  | cons s rest ih =>
    intro acc
    rw [List.foldl_cons, ih, List.map_cons, List.flatten_cons, errList_cons]
    cases h : s.outcome with
    | ok rs => simp [smvsStep, h, okHits, List.append_assoc]
    | error e => simp [smvsStep, h, okHits, List.append_assoc]

theorem smvs_fst (stores : List StoreSearch) (limit : Nat) (group : Bool) :
    (search_multiple_vector_stores stores limit group).1 =
      aggregate ((stores.map okHits).flatten) group limit := by
  rw [search_multiple_vector_stores, smvs_fold stores ([], [])]
  simp

/-- Claim C8: searching several vector stores isolates failures — the result
always equals the aggregation of exactly the successful stores' tagged hits,
a failing store contributes no hits but never aborts or empties the search,
and the diagnostic log carries one entry per failed store. -/
theorem c8_failure_isolation (stores : List StoreSearch) (limit : Nat)
    (group : Bool) :
    search_multiple_vector_stores stores limit group =
      (aggregate ((stores.map okHits).flatten) group limit, errList stores) ∧
    (errList stores).length = (stores.filter isErr).length := by
  constructor
  · rw [search_multiple_vector_stores, smvs_fold stores ([], [])]
    simp
  · exact errList_length stores

theorem tagHit_score (sid : Nat) (name : String) (r : SimilarityResult) :
    (tagHit sid name r).score = r.score := rfl

theorem sortDescBy_nil {α : Type} (f : α → ℚ) : sortDescBy f ([] : List α) = [] := rfl

theorem qdrant_search_mem (cands : List SimilarityResult) (lim : Nat) (thr : ℚ) :
    ∀ r ∈ qdrant_search cands lim thr, thr ≤ r.score ∧ r ∈ cands := by
  intro r hr
  unfold qdrant_search at hr
  have h1 := (sortDescBy_mem _).mp (List.mem_of_mem_take hr)
  rcases List.mem_filter.mp h1 with ⟨hmem, hp⟩
  simp only [decide_eq_true_eq] at hp
  exact ⟨hp, hmem⟩

theorem search_qdrant_mem (cands : List SimilarityResult) (limit : Nat) (thr : ℚ)
    (group : Bool) : ∀ r ∈ search_qdrant cands limit thr group, thr ≤ r.score := by
  intro r hr
  cases group with
  | false =>
    rw [show search_qdrant cands limit thr false = qdrant_search cands limit thr
      from rfl] at hr
    exact (qdrant_search_mem cands limit thr r hr).1
  | true =>
    rw [show search_qdrant cands limit thr true =
        group_results_by_document (qdrant_search cands (limit * 3) thr) limit
      from rfl] at hr
    exact (qdrant_search_mem cands (limit * 3) thr r (group_mem_sub _ _ r hr)).1

theorem smvs_pool_mem (pools : List PoolSearch) (limit : Nat) (thr : ℚ)
    (group : Bool) :
    ∀ r ∈ ((storesOfPools pools limit thr group).map okHits).flatten, thr ≤ r.score := by
  intro r hr
  rw [List.mem_flatten] at hr
  obtain ⟨l, hl, hrl⟩ := hr
  rw [List.mem_map] at hl
  obtain ⟨s, hs, rfl⟩ := hl
  rw [storesOfPools, List.mem_map] at hs
  obtain ⟨p, hp, rfl⟩ := hs
  rw [show okHits ⟨p.sid, p.name, .ok (search_qdrant p.candidates limit thr group)⟩ =
      (search_qdrant p.candidates limit thr group).map (tagHit p.sid p.name)
    from rfl] at hrl
  rw [List.mem_map] at hrl
  obtain ⟨r0, hr0, rfl⟩ := hrl
  rw [tagHit_score]
  exact search_qdrant_mem p.candidates limit thr group r0 hr0

theorem aggregate_sorted (all : List SimilarityResult) (group : Bool) (limit : Nat) :
    List.Sorted (descRel fun r => r.score) (aggregate all group limit) := by
  cases group with
  | true =>
    rw [aggregate_true]
    exact group_sorted _ _
  | false =>
    rw [aggregate_false]
    exact List.Pairwise.sublist (List.take_sublist _ _) (sortDescBy_sorted _ _)

theorem aggregate_mem (all : List SimilarityResult) (group : Bool) (limit : Nat) :
    ∀ r ∈ aggregate all group limit, r ∈ all := by
  intro r hr
  cases group with
  | false =>
    rw [aggregate_false] at hr
    exact (sortDescBy_mem _).mp (List.mem_of_mem_take hr)
  | true =>
    rw [aggregate_true] at hr
    exact (sortDescBy_mem _).mp (group_mem_sub _ _ r hr)

theorem aggregate_nil (group : Bool) (limit : Nat) :
    aggregate [] group limit = [] := by
  cases group with
  | false => rw [aggregate_false, sortDescBy_nil, List.take_nil]
  | true =>
    rw [aggregate_true, sortDescBy_nil]
    rfl

theorem qdrant_search_empty (cands : List SimilarityResult) (lim : Nat) (thr : ℚ)
    (h : ∀ c ∈ cands, c.score < thr) : qdrant_search cands lim thr = [] := by
  have hf : (cands.filter fun r => thr ≤ r.score) = [] := by
    rw [List.filter_eq_nil_iff]
    intro c hc
    simp only [decide_eq_true_eq]
    exact not_le.mpr (h c hc)
  unfold qdrant_search
  rw [hf, sortDescBy_nil, List.take_nil]

theorem search_qdrant_empty (cands : List SimilarityResult) (limit : Nat) (thr : ℚ)
    (group : Bool) (h : ∀ c ∈ cands, c.score < thr) :
    search_qdrant cands limit thr group = [] := by
  cases group with
  | false =>
    rw [show search_qdrant cands limit thr false = qdrant_search cands limit thr
      from rfl]
    exact qdrant_search_empty cands limit thr h
  | true =>
    rw [show search_qdrant cands limit thr true =
        group_results_by_document (qdrant_search cands (limit * 3) thr) limit
      from rfl]
    rw [qdrant_search_empty cands (limit * 3) thr h]
    rfl

theorem smvs_pools_empty (pools : List PoolSearch) (limit : Nat) (thr : ℚ)
    (group : Bool) (hall : ∀ p ∈ pools, ∀ c ∈ p.candidates, c.score < thr) :
    ((storesOfPools pools limit thr group).map okHits).flatten = [] := by
  rw [List.flatten_eq_nil_iff]
  intro l hl
  rw [List.mem_map] at hl
  obtain ⟨s, hs, rfl⟩ := hl
  rw [storesOfPools, List.mem_map] at hs
  obtain ⟨p, hp, rfl⟩ := hs
  rw [show okHits ⟨p.sid, p.name, .ok (search_qdrant p.candidates limit thr group)⟩ =
      (search_qdrant p.candidates limit thr group).map (tagHit p.sid p.name)
    from rfl]
  rw [search_qdrant_empty p.candidates limit thr group (hall p hp)]
  rfl

/-- Claim C7: every aggregated result set of the multi-store semantic search,
each store backed by the thresholded qdrant search over its candidate pool,
is sorted by score descending; every element scores at least the shared
similarity threshold (the threshold acts once, at the backing search — the
aggregation stage applies no second filter and no element below the threshold
ever enters it); and when every candidate scores strictly below the threshold
(threshold 1 over non-identical vectors) the result set is empty. -/
theorem c7_threshold_law (pools : List PoolSearch) (limit : Nat) (threshold : ℚ)
    (group : Bool) :
    List.Sorted (descRel fun r => r.score)
      (search_multiple_vector_stores (storesOfPools pools limit threshold group)
        limit group).1 ∧
    (∀ r ∈ (search_multiple_vector_stores (storesOfPools pools limit threshold group)
        limit group).1, threshold ≤ r.score) ∧
    ((∀ p ∈ pools, ∀ c ∈ p.candidates, c.score < threshold) →
      (search_multiple_vector_stores (storesOfPools pools limit threshold group)
        limit group).1 = []) := by
  refine ⟨?_, ?_, ?_⟩
  · rw [smvs_fst]
    exact aggregate_sorted _ group limit
  · intro r hr
    rw [smvs_fst] at hr
    exact smvs_pool_mem pools limit threshold group r (aggregate_mem _ group limit r hr)
  · intro hall
    rw [smvs_fst, smvs_pools_empty pools limit threshold group hall]
    exact aggregate_nil group limit

/-- Concrete run of the threshold law: threshold 1 over the demo pool, whose
only candidate scores 0, yields the empty aggregated result set. -/
theorem c7_witness :
    (∀ p ∈ demoPool, ∀ c ∈ p.candidates, c.score < 1) ∧
    (search_multiple_vector_stores (storesOfPools demoPool 5 1 false) 5 false).1 = [] :=
  ⟨by decide, (c7_threshold_law demoPool 5 1 false).2.2 (by decide)⟩

/-- The per-collection call always raises: similarity_threshold is not among
search_similar's parameters, so the TypeError fires before the body runs. -/
theorem call_search_similar_error (backend : String → String → Nat → List ChatHit)
    (c q : String) (k : Nat) (thr : ℚ) :
    call_search_similar backend c q k thr =
      .error ("TypeError: unexpected keyword argument for threshold "
        ++ toString thr) := rfl

theorem chatStep_id (env : ChatEnv) (q : String) (k : Nat) (thr : ℚ)
    (acc : List ChatHit) (c : String) : chatStep env q k thr acc c = acc := by
  rw [chatStep, call_search_similar_error]

theorem foldl_chatStep_nil (env : ChatEnv) (q : String) (k : Nat) (thr : ℚ)
    (cs : List String) : ∀ acc, cs.foldl (chatStep env q k thr) acc = acc := by
  induction cs with
  | nil =>
    intro acc
    rfl
  | cons c rest ih =>
    intro acc
    rw [List.foldl_cons, chatStep_id]
    exact ih acc

/-- Claim C2: with a non-empty list of collection names, the multi-collection
retrieval returns the empty list regardless of what the collections contain:
each per-collection call forwards a similarity_threshold keyword argument
that search_similar does not accept, the resulting error is caught inside the
loop, and the collection is skipped. -/
theorem c2_multi_search_always_empty (env : ChatEnv) (query : String)
    (collection_names : List String) (top_k : Nat) (threshold : ℚ)
    (h : collection_names ≠ []) :
    search_relevant_documents_multiple env query collection_names top_k threshold
      = [] := by
  have hne : collection_names.isEmpty = false := by
    rw [← Bool.not_eq_true, List.isEmpty_iff]
    exact h
  cases hq : env.useQdrant with
  | false => simp [search_relevant_documents_multiple, hq]
  | true =>
    simp only [search_relevant_documents_multiple, hq, hne, Bool.not_true,
      Bool.false_eq_true, if_false]
    rw [foldl_chatStep_nil, sortDescBy_nil, List.take_nil]

/-- Concrete run of the multi-collection retrieval: a live environment whose
backend would return a hit still yields the empty list for a named
collection. -/
theorem c2_witness :
    (["docs"] : List String) ≠ [] ∧
    search_relevant_documents_multiple demoChatEnv "query" ["docs"] 5 1 = [] :=
  ⟨by decide, c2_multi_search_always_empty demoChatEnv "query" ["docs"] 5 1 (by decide)⟩

end PLN
